import Mathlib

/-!
Formalization of the reconciliation core of the `tdv` inspections lakehouse:
the snapshot differ (`src/etl_001/delta.py`), the row-signature hasher
(`src/etl_001/hashing.py`), the event collapser and assignment resolver
(`src/etl_004_gold_scope_assignment_current/pipeline.py`), the eligibility
evaluator (`src/etl_007_invoice_eligibility_builder/eligibility_rules.py` and
`eligibility_rules2.py`), and the business-key normalizer
(`src/util/scope_keys.py`).

Dataframes are modelled as lists of records.  A pandas "string" cell is
`Option String` (with `none` for a null / NA marker), a parsed datetime is
`Option Nat` (with `none` for NaT), and nullable booleans that the source
immediately coerces with `fillna` are modelled at the coercion point.
Multi-column descending sorts with `na_position="last"` are modelled by a
stable sort under the lexicographic order on tuples in which null is the
bottom element, which is exactly how pandas orders such keys.
-/

/-! ## Generic string and list utilities -/

/-- Whitespace test used by the model of pandas `str.strip`. -/
def wsChar (c : Char) : Bool :=
  c == ' ' || c == '\t' || c == '\n' || c == '\r'

/-- Model of pandas `str.strip()`: drop leading and trailing whitespace. -/
def strTrim (s : String) : String :=
  ⟨((s.data.dropWhile wsChar).reverse.dropWhile wsChar).reverse⟩

/-- Code points of a string; Python compares strings lexicographically by
code point, which is the lexicographic order on these lists. -/
def strCodes (s : String) : List Nat := s.data.map Char.toNat

/-- Lexicographic (Python-style) order on strings. -/
def strLE (a b : String) : Prop := strCodes a ≤ strCodes b

instance : DecidableRel strLE := fun a b =>
  inferInstanceAs (Decidable (strCodes a ≤ strCodes b))

instance : IsTotal String strLE := ⟨fun a b => le_total (strCodes a) (strCodes b)⟩

instance : IsTrans String strLE := ⟨fun _ _ _ h1 h2 => le_trans h1 h2⟩

instance : IsAntisymm String strLE :=
  ⟨fun a b h1 h2 => by
    have hc : strCodes a = strCodes b := le_antisymm h1 h2
    have hd : a.data = b.data :=
      List.map_injective_iff.mpr
        (fun _ _ hxy => Char.eq_of_val_eq (UInt32.toNat.inj hxy)) hc
    cases a; cases b; simp_all⟩

/-- Alphabetical sort of a list of column names (models `sorted(...)`). -/
def sortStrings (l : List String) : List String := List.insertionSort strLE l

/-- Model of `DataFrame.drop_duplicates(subset=key, keep="first")`: keep each
row whose key has not been seen yet, scanning front to back.  `seen` is the
accumulator of keys already kept. -/
def dedupeBy {α κ : Type} [DecidableEq κ] (key : α → κ) :
    List α → List κ → List α
  | [], _ => []
  | e :: rest, seen =>
    if key e ∈ seen then dedupeBy key rest seen
    else e :: dedupeBy key rest (key e :: seen)

/-! ## SHA-256, modelling `hashlib.sha256(...).hexdigest()`

Words are `Nat` reduced mod `2 ^ 32` at every arithmetic step. -/

def w32 (n : Nat) : Nat := n % 4294967296

/-- Rotate a 32-bit word right by `n` bits. -/
def rotr32 (n x : Nat) : Nat := (x % 2 ^ n) * 2 ^ (32 - n) + x / 2 ^ n

/-- Bitwise complement of a 32-bit word. -/
def not32 (x : Nat) : Nat := 4294967295 - x % 4294967296

def bigSigma0 (x : Nat) : Nat := rotr32 2 x ^^^ rotr32 13 x ^^^ rotr32 22 x

def bigSigma1 (x : Nat) : Nat := rotr32 6 x ^^^ rotr32 11 x ^^^ rotr32 25 x

def smallSigma0 (x : Nat) : Nat := rotr32 7 x ^^^ rotr32 18 x ^^^ x / 2 ^ 3

def smallSigma1 (x : Nat) : Nat := rotr32 17 x ^^^ rotr32 19 x ^^^ x / 2 ^ 10

def chVal (e f g : Nat) : Nat := (e &&& f) ^^^ (not32 e &&& g)

def majVal (a b c : Nat) : Nat := (a &&& b) ^^^ (a &&& c) ^^^ (b &&& c)

def sha256K : List Nat :=
  [1116352408, 1899447441, 3049323471, 3921009573,
   961987163, 1508970993, 2453635748, 2870763221,
   3624381080, 310598401, 607225278, 1426881987,
   1925078388, 2162078206, 2614888103, 3248222580,
   3835390401, 4022224774, 264347078, 604807628,
   770255983, 1249150122, 1555081692, 1996064986,
   2554220882, 2821834349, 2952996808, 3210313671,
   3336571891, 3584528711, 113926993, 338241895,
   666307205, 773529912, 1294757372, 1396182291,
   1695183700, 1986661051, 2177026350, 2456956037,
   2730485921, 2820302411, 3259730800, 3345764771,
   3516065817, 3600352804, 4094571909, 275423344,
   430227734, 506948616, 659060556, 883997877,
   958139571, 1322822218, 1537002063, 1747873779,
   1955562222, 2024104815, 2227730452, 2361852424,
   2428436474, 2756734187, 3204031479, 3329325298]

structure Sha256Digest where
  h0 : Nat
  h1 : Nat
  h2 : Nat
  h3 : Nat
  h4 : Nat
  h5 : Nat
  h6 : Nat
  h7 : Nat
deriving DecidableEq

def sha256Init : Sha256Digest :=
  ⟨1779033703, 3144134277, 1013904242, 2773480762,
   1359893119, 2600822924, 528734635, 1541459225⟩

def compressStep (st : Sha256Digest) (kw : Nat × Nat) : Sha256Digest :=
  let t1 := w32 (st.h7 + bigSigma1 st.h4 + chVal st.h4 st.h5 st.h6 + kw.1 + kw.2)
  let t2 := w32 (bigSigma0 st.h0 + majVal st.h0 st.h1 st.h2)
  ⟨w32 (t1 + t2), st.h0, st.h1, st.h2, w32 (st.h3 + t1), st.h4, st.h5, st.h6⟩

/-- Combine four big-endian bytes of a block into each of the 16 words. -/
def wordsOfBlock (b : List Nat) : List Nat :=
  (List.range 16).map (fun i =>
    b.getD (4 * i) 0 * 16777216 + b.getD (4 * i + 1) 0 * 65536 +
      b.getD (4 * i + 2) 0 * 256 + b.getD (4 * i + 3) 0)

/-- Extend the 16 block words by `n` further schedule words. -/
def extendSchedule : Nat → List Nat → List Nat
  | 0, w => w
  | n + 1, w =>
    let i := w.length
    let nw := w32 (smallSigma1 (w.getD (i - 2) 0) + w.getD (i - 7) 0 +
      smallSigma0 (w.getD (i - 15) 0) + w.getD (i - 16) 0)
    extendSchedule n (w ++ [nw])

def compressBlock (H : Sha256Digest) (block : List Nat) : Sha256Digest :=
  let w := extendSchedule 48 (wordsOfBlock block)
  let st := (sha256K.zip w).foldl compressStep H
  ⟨w32 (H.h0 + st.h0), w32 (H.h1 + st.h1), w32 (H.h2 + st.h2), w32 (H.h3 + st.h3),
   w32 (H.h4 + st.h4), w32 (H.h5 + st.h5), w32 (H.h6 + st.h6), w32 (H.h7 + st.h7)⟩

/-- Big-endian byte list of width `len` for the value `n`. -/
def toBytesBE (len n : Nat) : List Nat :=
  (List.range len).map (fun i => n / 2 ^ (8 * (len - 1 - i)) % 256)

/-- SHA-256 padding: a `0x80` byte, zeros up to 56 mod 64, then the bit
length as eight big-endian bytes. -/
def padMessage (msg : List Nat) : List Nat :=
  msg ++ 128 :: (List.replicate ((119 - msg.length % 64) % 64) 0 ++
    toBytesBE 8 (8 * msg.length))

def chunksGo : Nat → List Nat → List (List Nat)
  | 0, _ => []
  | n + 1, l => l.take 64 :: chunksGo n (l.drop 64)

def sha256Bytes (msg : List Nat) : Sha256Digest :=
  let padded := padMessage msg
  (chunksGo (padded.length / 64) padded).foldl compressBlock sha256Init

/-- UTF-8 encoding of one scalar value. -/
def utf8Bytes (c : Char) : List Nat :=
  let n := c.toNat
  if n < 128 then [n]
  else if n < 2048 then [192 + n / 64, 128 + n % 64]
  else if n < 65536 then [224 + n / 4096, 128 + n / 64 % 64, 128 + n % 64]
  else [240 + n / 262144, 128 + n / 4096 % 64, 128 + n / 64 % 64, 128 + n % 64]

def strUtf8 (s : String) : List Nat := s.data.flatMap utf8Bytes

def hexDigit (k : Nat) : Char := "0123456789abcdef".data.getD k '0'

def natToHex8 (n : Nat) : List Char :=
  (List.range 8).map (fun i => hexDigit (n / 16 ^ (7 - i) % 16))

def digestWords (d : Sha256Digest) : List Nat :=
  [d.h0, d.h1, d.h2, d.h3, d.h4, d.h5, d.h6, d.h7]

/-- Lowercase hexadecimal SHA-256 digest of the UTF-8 bytes of a string. -/
def sha256Hex (s : String) : String :=
  ⟨(digestWords (sha256Bytes (strUtf8 s))).flatMap natToHex8⟩

/-! ## Row signatures (`src/etl_001/hashing.py`, `row_hashes`)

A dataframe row is an association list from column name to cell.  A cell is
either a string value, a Python `None`, or a library NA marker (`pd.NA` /
`NaT`); `astype("string").fillna("")` coerces both null notions to `""`. -/

inductive Cell : Type
  | strv (s : String)
  | noneV
  | naV
deriving DecidableEq

/-- Value content of a cell: both null representations carry no value. -/
def cellValue : Cell → Option String
  | .strv s => some s
  | .noneV => none
  | .naV => none

/-- Coercion used by `row_hashes`: `astype("string").fillna("")`. -/
def cellStr (c : Cell) : String := (cellValue c).getD ""

/-- Value of a row at a column (missing column or null cell count as null). -/
def valueAt (row : List (String × Cell)) (c : String) : Option String :=
  (row.lookup c).bind cellValue

/-- Reindex to the alphabetically sorted columns and coerce every value to a
string, nulls and missing columns becoming `""` (as `reindex` + `fillna`). -/
def reindexedValues (cols : List String) (row : List (String × Cell)) :
    List String :=
  (sortStrings cols).map (fun c => ((row.lookup c).map cellStr).getD "")

/-- Canonical pre-hash form of a row: sorted columns, coerced values,
joined with `"|"`. -/
def rowCanonical (cols : List String) (row : List (String × Cell)) : String :=
  String.intercalate "|" (reindexedValues cols row)

/-- Signature of one row over a given column set:
SHA-256 hex digest of the canonical form. -/
def rowSignature (cols : List String) (row : List (String × Cell)) : String :=
  sha256Hex (rowCanonical cols row)

/-- Model of `row_hashes` applied to one dataframe row (the columns are the
row's own columns). -/
def row_hash (row : List (String × Cell)) : String :=
  rowSignature (row.map Prod.fst) row

/-- Model of `row_hashes` over a whole frame. -/
def row_hashes (frame : List (List (String × Cell))) : List String :=
  frame.map row_hash

/-! ## Snapshot differ (`src/etl_001/delta.py`, `compute_key_delta`)

A keyed snapshot row carries the derived business key `_key`, the activity
flag `_is_active` (removal date null or unparseable means active), and the
remaining non-key, non-helper columns, which is what the signature
comparison is computed over. -/

structure SRow where
  key : String
  isActive : Bool
  attrs : List (String × Cell)
deriving DecidableEq

def keysOf (s : List SRow) : List String := s.map SRow.key

/-- Model of the `cur_active` / `prev_active` dicts with `.get(k, False)`. -/
def activeOf (s : List SRow) (k : String) : Bool :=
  ((s.find? (fun r => r.key == k)).map SRow.isActive).getD false

/-- Keys present in both snapshots (`both = cur_keys & prev_keys`). -/
def bothKeys (cur prev : List SRow) : List String :=
  (keysOf cur).filter (fun k => (keysOf prev).contains k)

def onlyCurKeys (cur prev : List SRow) : List String :=
  (keysOf cur).filter (fun k => !(keysOf prev).contains k)

def onlyPrevKeys (cur prev : List SRow) : List String :=
  (keysOf prev).filter (fun k => !(keysOf cur).contains k)

/-- `reactivated = {k ∈ both | not prev_active[k] and cur_active[k]}`. -/
def reactivatedKeys (cur prev : List SRow) : List String :=
  (bothKeys cur prev).filter (fun k => !activeOf prev k && activeOf cur k)

/-- `added_new = {k ∈ only_cur | cur_active.get(k, False)}`. -/
def addedNewKeys (cur prev : List SRow) : List String :=
  (onlyCurKeys cur prev).filter (fun k => activeOf cur k)

def addedKeys (cur prev : List SRow) : List String :=
  reactivatedKeys cur prev ++ addedNewKeys cur prev

/-- `removed_soft = {k ∈ both | prev_active[k] and not cur_active[k]}`. -/
def removedSoftKeys (cur prev : List SRow) : List String :=
  (bothKeys cur prev).filter (fun k => activeOf prev k && !activeOf cur k)

/-- `removed_missing = {k ∈ only_prev | prev_active.get(k, False)}`. -/
def removedMissingKeys (cur prev : List SRow) : List String :=
  (onlyPrevKeys cur prev).filter (fun k => activeOf prev k)

def removedKeys (cur prev : List SRow) : List String :=
  removedSoftKeys cur prev ++ removedMissingKeys cur prev

/-- Column names of a snapshot's comparison frame. -/
def allCols (s : List SRow) : List String :=
  (s.flatMap (fun r => r.attrs.map Prod.fst)).dedup

/-- `compare_cols = sorted(set(cur.columns) & set(prev.columns))`, the
helper/ignore columns being the `SRow` fields themselves. -/
def compareCols (cur prev : List SRow) : List String :=
  sortStrings ((allCols cur).filter (fun c => (allCols prev).contains c))

/-- Signature of the row with key `k` over the comparison columns (the merge
on `_key` with unique keys is a keyed lookup). -/
def sigOfKey (cols : List String) (s : List SRow) (k : String) : String :=
  ((s.find? (fun r => r.key == k)).map
    (fun r => rowSignature cols r.attrs)).getD ""

/-- `updated = {k ∈ both | active in both and signatures differ}`. -/
def updatedKeys (cur prev : List SRow) : List String :=
  (bothKeys cur prev).filter (fun k =>
    activeOf prev k && activeOf cur k &&
      (sigOfKey (compareCols cur prev) cur k !=
        sigOfKey (compareCols cur prev) prev k))

/-- Keys in neither emitted partition (`unchanged`, never emitted). -/
def unchangedKeys (cur prev : List SRow) : List String :=
  (keysOf cur ++ keysOf prev).filter (fun k =>
    !(addedKeys cur prev).contains k && !(removedKeys cur prev).contains k &&
      !(updatedKeys cur prev).contains k)

/-- Emitted `added` frame: rows from `cur`, tagged `reactivated` by default
and overwritten to `added_new` on the `added_new` keys. -/
def addedOut (cur prev : List SRow) : List (SRow × String) :=
  (cur.filter (fun r => (addedKeys cur prev).contains r.key)).map
    (fun r => (r, if (addedNewKeys cur prev).contains r.key
      then "added_new" else "reactivated"))

/-- Emitted `removed` frame: soft removals sourced from `cur`, missing
removals sourced from `prev`, concatenated in that order. -/
def removedOut (cur prev : List SRow) : List (SRow × String) :=
  (cur.filter (fun r => (removedSoftKeys cur prev).contains r.key)).map
      (fun r => (r, "removed_soft")) ++
    (prev.filter (fun r => (removedMissingKeys cur prev).contains r.key)).map
      (fun r => (r, "removed_missing_in_current"))

/-- Emitted `updated` frame: rows from `cur` on the updated keys. -/
def updatedOut (cur prev : List SRow) : List (SRow × String) :=
  (cur.filter (fun r => (updatedKeys cur prev).contains r.key)).map
    (fun r => (r, "updated_active"))

/-! ## Event collapser (`etl_004_gold_scope_assignment_current/pipeline.py`,
`_collapse_latest_events`)

An event row after normalization: string columns are `Option String`
(`astype("string")` keeps NA), the effective date is the result of
`pd.to_datetime(..., errors="coerce")` (`none` = NaT), and `payload` stands
for the passthrough descriptive columns.  The four-column descending sort
with `na_position="last"` is the lexicographic order on `SortKey` below,
where the bottom element plays the role of a null. -/

structure Event where
  vendor : String
  scopeKey : String
  eventType : Option String
  effDate : Option Nat
  runDate : Option String
  runId : Option String
  payload : String
deriving DecidableEq

/-- `_EVENT_PRIORITY = {"move_to_helo": 2, "removal": 1}` with `.fillna(0)`. -/
def eventPriority (t : Option String) : Nat :=
  match t with
  | some "move_to_helo" => 2
  | some "removal" => 1
  | _ => 0

/-- Sort key: effective date, then run date, then event priority, then run
id; all descending with nulls last, i.e. maximal under this order wins. -/
abbrev SortKey := WithBot Nat ×ₗ (WithBot (List Nat) ×ₗ (Nat ×ₗ WithBot (List Nat)))

def natBot (a : Option Nat) : WithBot Nat := a.elim ⊥ (↑·)

def strBot (a : Option String) : WithBot (List Nat) := a.elim ⊥ (fun s => ↑(strCodes s))

def sortKeyOf (e : Event) : SortKey :=
  toLex (natBot e.effDate,
    toLex (strBot e.runDate, toLex (eventPriority e.eventType, strBot e.runId)))

/-- Sort relation for the descending sort: `a` comes no later than `b`. -/
def eventLE (a b : Event) : Prop := sortKeyOf b ≤ sortKeyOf a

instance : DecidableRel eventLE := fun a b =>
  inferInstanceAs (Decidable (sortKeyOf b ≤ sortKeyOf a))

instance : IsTotal Event eventLE :=
  ⟨fun a b => by unfold eventLE; exact le_total (sortKeyOf b) (sortKeyOf a)⟩

instance : IsTrans Event eventLE := ⟨fun _ _ _ h1 h2 => le_trans h2 h1⟩

def eventKey (e : Event) : String × String := (e.vendor, e.scopeKey)

/-- Model of `_collapse_latest_events`: stable descending sort on the four
sort columns, then `drop_duplicates(subset=["vendor", "scope_floc_key"],
keep="first")`. -/
def _collapse_latest_events (l : List Event) : List Event :=
  dedupeBy eventKey (List.insertionSort eventLE l) []

/-- No two events of the log share both the (vendor, unit key) pair and all
four sort-key fields. -/
def NoFullTie (l : List Event) : Prop :=
  ∀ e1 ∈ l, ∀ e2 ∈ l, eventKey e1 = eventKey e2 →
    sortKeyOf e1 = sortKeyOf e2 → e1 = e2

instance decNoFullTie (l : List Event) : Decidable (NoFullTie l) := by
  unfold NoFullTie
  infer_instance

/-! ## Assignment resolver (`etl_004_gold_scope_assignment_current/pipeline.py`) -/

/-- A silver CURRENT assignment row before `_prep_assignment_frame`. -/
structure SilverRow where
  vendor : String
  floc : String
  scope_id : String
  scope_floc_key : String
  is_active : Bool
  payload : String
deriving DecidableEq

/-- A normalized assignment row after `_prep_assignment_frame`. -/
structure ARow where
  vendor : String
  floc : String
  scope_id : String
  scope_floc_key : String
  assignment_method : String
  base_is_active : Bool
  payload : String
deriving DecidableEq

/-- Model of `_prep_assignment_frame`: HELO rows are always base-active,
DRONE rows take the silver `is_active` flag. -/
def _prep_assignment_frame (method : String) (rows : List SilverRow) : List ARow :=
  rows.map (fun r =>
    ⟨r.vendor, r.floc, r.scope_id, r.scope_floc_key, method,
      if method == "HELO" then true else r.is_active, r.payload⟩)

def aKey (r : ARow) : String × String := (r.vendor, r.scope_floc_key)

/-- `{"HELO": 2, "DRONE": 1}` with `.fillna(0)`. -/
def methodPriority (m : String) : Nat :=
  if m == "HELO" then 2 else if m == "DRONE" then 1 else 0

def methodLE (a b : ARow) : Prop :=
  methodPriority b.assignment_method ≤ methodPriority a.assignment_method

instance : DecidableRel methodLE := fun a b =>
  inferInstanceAs (Decidable (methodPriority b.assignment_method ≤
    methodPriority a.assignment_method))

instance : IsTotal ARow methodLE :=
  ⟨fun a b => by
    unfold methodLE
    exact le_total (methodPriority b.assignment_method)
      (methodPriority a.assignment_method)⟩

instance : IsTrans ARow methodLE := ⟨fun _ _ _ h1 h2 => le_trans h2 h1⟩

/-- Model of `_choose_preferred_assignment`: stable sort by method priority
descending, then `drop_duplicates(subset=["vendor", "scope_floc_key"],
keep="first")`. -/
def _choose_preferred_assignment (rows : List ARow) : List ARow :=
  dedupeBy aKey (List.insertionSort methodLE rows) []

/-- Latest event type for a key: the left join against the collapsed events
(unique per key by construction) is a keyed lookup; a match whose
`event_type` is itself NA behaves like no match in the masks below. -/
def latest_event_type_for (events : List Event) (v k : String) : Option String :=
  (events.find? (fun e => e.vendor == v && e.scopeKey == k)).bind Event.eventType

/-- Output row of `_apply_events_to_assignments`. -/
structure AssignOut where
  row : ARow
  latest_event_type : Option String
  is_active_assignment : Bool
  assignment_status : Option String
deriving DecidableEq

/-- Per-row event overlay, mirroring the sequence of masked assignments in
`_apply_events_to_assignments` (`lt` is `latest_event_type.fillna("")`). -/
def _apply_events_row (latestType : Option String) (r : ARow) : AssignOut :=
  let lt := latestType.getD ""
  let a1 := r.base_is_active
  let s1 : Option String := none
  let a2 := if lt == "removal" then false else a1
  let s2 := if lt == "removal" then some "REMOVED" else s1
  let a3 := if lt == "move_to_helo" && r.assignment_method == "HELO" then true else a2
  let s3 := if lt == "move_to_helo" && r.assignment_method == "HELO"
    then some "ACTIVE_HELO" else s2
  let a4 := if lt == "move_to_helo" && r.assignment_method == "DRONE" then false else a3
  let s4 := if lt == "move_to_helo" && r.assignment_method == "DRONE"
    then some "MOVED_TO_HELO" else s3
  let noEvt := lt == ""
  let s5 := if noEvt && r.assignment_method == "HELO" && a4
    then some "ACTIVE_HELO" else s4
  let s6 := if noEvt && r.assignment_method == "DRONE" && a4
    then some "ACTIVE_DRONE" else s5
  let s7 := if noEvt && !a4 then some "INACTIVE" else s6
  ⟨r, latestType, a4, s7⟩

/-- Model of `_apply_events_to_assignments` over a frame. -/
def _apply_events_to_assignments (events : List Event) (rows : List ARow) :
    List AssignOut :=
  rows.map (fun r =>
    _apply_events_row (latest_event_type_for events r.vendor r.scope_floc_key) r)

/-! ## Eligibility evaluator (`etl_007_invoice_eligibility_builder`)

Two generations of the rules module exist in the source tree:
`eligibility_rules.py` (imported by `pipeline.py`) and `eligibility_rules2.py`
(whose header names it as a replacement for `eligibility_rules.py`; it fixes
the NA-unsafe reason joiner, reorders the bucket overrides so the COMP
sentinel is applied last, and adds the EZ_POLE billing override).  Both are
modelled; the `...2` names correspond to `eligibility_rules2.py`.

A gold scope row as read by the evaluator, after `pipeline.py` merged the
`floc_attributes_dim` columns onto it.  The two left joins inside the
evaluator (deliveries on vendor + unit key, Azure evidence on floc only)
are keyed lookups because both right-hand frames are unique on their join
keys by construction (`groupby` output resp. `drop_duplicates`). -/

structure EScopeRow where
  vendor : String
  scope_id : String
  floc : String
  scope_floc_key : String
  assignment_status : String
  assignment_method : String
  is_active_assignment : Option Bool
  object_type : Option String
deriving DecidableEq

/-- One aggregated deliveries-evidence row (`build_deliveries_agg` output). -/
structure DelivAgg where
  vendor : String
  scope_floc_key : String
  image_count_total : Nat
  folder_count : Nat
  has_gcp_delivery : Bool
  has_min_images : Bool
deriving DecidableEq

/-- One standardized Azure FLOC rollup row (`standardize_azure_floc` output). -/
structure AzureFloc where
  floc : String
  has_any_mdoc : Bool
  has_aerial_mdoc : Bool
  has_ground_mdoc : Bool
deriving DecidableEq

/-- Model of `eligibility_rules._join_reasons`: truthy flags are joined; on
plain booleans truthiness is the boolean itself. -/
def _join_reasons (flags : List (String × Bool)) : String :=
  String.intercalate ";" ((flags.filter (fun p => p.2)).map Prod.fst)

/-- Names of the flags that are literally `True`
(`eligibility_rules2._join_reasons`, `v is True`). -/
def reason_names2 (flags : List (String × Option Bool)) : List String :=
  (flags.filter (fun p => p.2 == some true)).map Prod.fst

/-- Model of `eligibility_rules2._join_reasons`: NA-safe, a flag is counted
only when it is literally `True`; `none` is resolved to not-blocking. -/
def _join_reasons2 (flags : List (String × Option Bool)) : String :=
  String.intercalate ";" (reason_names2 flags)

/-- Per-row eligibility line of `eligibility_rules.py` (distribution). -/
structure EligLineV1 where
  program_bucket : String
  is_active_assignment : Bool
  image_count_total : Nat
  approved_to_invoice : Bool
  block_reasons : String
  needs_review : Bool
deriving DecidableEq

/-- Per-row eligibility line of `eligibility_rules2.py`. -/
structure EligLineV2 where
  program_bucket : String
  program_acronym : String
  billing_bucket : String
  is_work_complete : Bool
  is_billable : Bool
  is_active_assignment : Bool
  image_count_total : Nat
  approved_to_invoice : Bool
  block_reasons : String
  needs_review : Bool
deriving DecidableEq

/-- Bucket, requirement, decision and reason columns of
`eligibility_rules.compute_distribution_eligibility`, as a function of the
joined evidence atoms.  The `let` chain mirrors the sequence of column
assignments; in this version the COMP override is applied before the method
buckets. -/
def dist_elig_core (minImages ict : Nat) (hAer hGr isActive : Bool)
    (sid status : String) : EligLineV1 :=
  let b0 := "DIST_OTHER"
  let b1 := if sid == "COMP" then "DIST_COMP" else b0
  let b2 := if status == "ACTIVE_HELO" then "DIST_HELO" else b1
  let bucket := if status == "ACTIVE_DRONE" then "DIST_DRONE" else b2
  let reqImages := bucket == "DIST_DRONE" || bucket == "DIST_HELO"
  let reqAer := bucket == "DIST_DRONE"
  let reqGr := bucket == "DIST_DRONE" || bucket == "DIST_COMP"
  let meetsImages := !reqImages || decide (minImages ≤ ict)
  let meetsAer := !reqAer || hAer
  let meetsGr := !reqGr || hGr
  let meetsAll := meetsImages && meetsAer && meetsGr
  let approved := isActive && meetsAll
  let blockInactive := !isActive
  let blockImages := reqImages && decide (ict < minImages)
  let blockAer := reqAer && !hAer
  let blockGr := reqGr && !hGr
  let reasons := _join_reasons
    [("BLOCK_INACTIVE_ASSIGNMENT", blockInactive),
     ("BLOCK_MISSING_GCP_MIN_IMAGES", blockImages),
     ("BLOCK_MISSING_AERIAL_MDOC", blockAer),
     ("BLOCK_MISSING_GROUND_MDOC", blockGr)]
  ⟨bucket, isActive, ict, approved, reasons, !approved⟩

/-- Per-row model of `eligibility_rules.compute_distribution_eligibility`:
clean the key columns, perform the two left-join lookups, coerce the joined
evidence (`fillna(0)` / `fillna(False)`), then compute the columns. -/
def distribution_eligibility_row (minImages : Nat) (deliv : List DelivAgg)
    (az : List AzureFloc) (r : EScopeRow) : EligLineV1 :=
  let v := strTrim r.vendor
  let sid := strTrim r.scope_id
  let fl := strTrim r.floc
  let key := strTrim r.scope_floc_key
  let status := strTrim r.assignment_status
  let d := deliv.find? (fun x => x.vendor == v && x.scope_floc_key == key)
  let ict := (d.map DelivAgg.image_count_total).getD 0
  let a := az.find? (fun x => x.floc == fl)
  let hAer := (a.map AzureFloc.has_aerial_mdoc).getD false
  let hGr := (a.map AzureFloc.has_ground_mdoc).getD false
  dist_elig_core minImages ict hAer hGr (r.is_active_assignment.getD false)
    sid status

/-- Model of `eligibility_rules.compute_distribution_eligibility`. -/
def compute_distribution_eligibility (minImages : Nat) (scope : List EScopeRow)
    (deliv : List DelivAgg) (az : List AzureFloc) : List EligLineV1 :=
  scope.map (distribution_eligibility_row minImages deliv az)

/-- Decision and reason columns of
`eligibility_rules.compute_transmission_eligibility` over the joined atoms. -/
def trans_elig_core (minImages ict : Nat) (isActive : Bool) : EligLineV1 :=
  let meetsImages := decide (minImages ≤ ict)
  let approved := isActive && meetsImages
  let blockInactive := !isActive
  let blockImages := decide (ict < minImages)
  let reasons := _join_reasons
    [("BLOCK_INACTIVE_ASSIGNMENT", blockInactive),
     ("BLOCK_MISSING_GCP_MIN_IMAGES", blockImages)]
  ⟨"TRANS", isActive, ict, approved, reasons, !approved⟩

/-- Per-row model of `eligibility_rules.compute_transmission_eligibility`. -/
def transmission_eligibility_row (minImages : Nat) (deliv : List DelivAgg)
    (r : EScopeRow) : EligLineV1 :=
  let v := strTrim r.vendor
  let key := strTrim r.scope_floc_key
  let d := deliv.find? (fun x => x.vendor == v && x.scope_floc_key == key)
  let ict := (d.map DelivAgg.image_count_total).getD 0
  trans_elig_core minImages ict (r.is_active_assignment.getD false)

/-- Model of `eligibility_rules.compute_transmission_eligibility`. -/
def compute_transmission_eligibility (minImages : Nat) (scope : List EScopeRow)
    (deliv : List DelivAgg) : List EligLineV1 :=
  scope.map (transmission_eligibility_row minImages deliv)

/-- Bucket, billing and reason columns of
`eligibility_rules2.compute_distribution_eligibility` over the joined atoms
(`obj` is the trimmed, null-filled `object_type`): the COMP sentinel
override is applied last, and EZ_POLE forces the non-billable billing
bucket after everything else. -/
def dist_elig2_core (minImages ict : Nat) (hAer hGr isActive : Bool)
    (sid status obj : String) : EligLineV2 :=
  let b0 := "DIST_OTHER"
  let b1 := if status == "ACTIVE_HELO" then "DIST_HELO" else b0
  let b2 := if status == "ACTIVE_DRONE" then "DIST_DRONE" else b1
  let bucket := if sid == "COMP" then "DIST_COMP" else b2
  let reqImages := bucket == "DIST_DRONE" || bucket == "DIST_HELO"
  let reqAer := bucket == "DIST_DRONE"
  let reqGr := bucket == "DIST_DRONE" || bucket == "DIST_COMP"
  let meetsImages := !reqImages || decide (minImages ≤ ict)
  let meetsAer := !reqAer || hAer
  let meetsGr := !reqGr || hGr
  let meetsAll := meetsImages && meetsAer && meetsGr
  let acronym := if bucket == "DIST_DRONE" then "D360"
    else if bucket == "DIST_COMP" then "ODI"
    else if bucket == "DIST_HELO" then "HELO" else "DIST_OTHER"
  let workComplete := meetsAll
  let billable0 := isActive && !(acronym == "DIST_OTHER")
  let ez := obj == "EZ_POLE"
  let billing := if ez then "NON_BILLABLE" else acronym
  let billable := if ez then false else billable0
  let approved := workComplete && billable
  let blockInactive := !isActive
  let blockImages := reqImages && decide (ict < minImages)
  let blockAer := reqAer && !hAer
  let blockGr := reqGr && !hGr
  let reasons := _join_reasons2
    [("BLOCK_INACTIVE_ASSIGNMENT", some blockInactive),
     ("BLOCK_MISSING_GCP_MIN_IMAGES", some blockImages),
     ("BLOCK_MISSING_AERIAL_MDOC", some blockAer),
     ("BLOCK_MISSING_GROUND_MDOC", some blockGr),
     ("BLOCK_EZ_POLE_DIST_NOT_BILLABLE", some ez)]
  ⟨bucket, acronym, billing, workComplete, billable, isActive, ict,
    approved, reasons, !approved⟩

/-- Per-row model of `eligibility_rules2.compute_distribution_eligibility`:
clean the key columns, perform the two left-join lookups, coerce the joined
evidence, then compute the columns. -/
def distribution_eligibility_row2 (minImages : Nat) (deliv : List DelivAgg)
    (az : List AzureFloc) (r : EScopeRow) : EligLineV2 :=
  let v := strTrim r.vendor
  let sid := strTrim r.scope_id
  let fl := strTrim r.floc
  let key := strTrim r.scope_floc_key
  let status := strTrim r.assignment_status
  let d := deliv.find? (fun x => x.vendor == v && x.scope_floc_key == key)
  let ict := (d.map DelivAgg.image_count_total).getD 0
  let a := az.find? (fun x => x.floc == fl)
  let hAer := (a.map AzureFloc.has_aerial_mdoc).getD false
  let hGr := (a.map AzureFloc.has_ground_mdoc).getD false
  dist_elig2_core minImages ict hAer hGr (r.is_active_assignment.getD false)
    sid status (strTrim (r.object_type.getD ""))

/-- Model of `eligibility_rules2.compute_distribution_eligibility`. -/
def compute_distribution_eligibility2 (minImages : Nat) (scope : List EScopeRow)
    (deliv : List DelivAgg) (az : List AzureFloc) : List EligLineV2 :=
  scope.map (distribution_eligibility_row2 minImages deliv az)

/-- Decision and reason columns of
`eligibility_rules2.compute_transmission_eligibility` over the joined atoms. -/
def trans_elig2_core (minImages ict : Nat) (isActive : Bool) : EligLineV2 :=
  let meetsImages := decide (minImages ≤ ict)
  let workComplete := meetsImages
  let billable := isActive
  let approved := workComplete && billable
  let blockInactive := !isActive
  let blockImages := decide (ict < minImages)
  let reasons := _join_reasons2
    [("BLOCK_INACTIVE_ASSIGNMENT", some blockInactive),
     ("BLOCK_MISSING_GCP_MIN_IMAGES", some blockImages)]
  ⟨"TRANS", "ATI", "ATI", workComplete, billable, isActive, ict,
    approved, reasons, !approved⟩

/-- Per-row model of `eligibility_rules2.compute_transmission_eligibility`. -/
def transmission_eligibility_row2 (minImages : Nat) (deliv : List DelivAgg)
    (r : EScopeRow) : EligLineV2 :=
  let v := strTrim r.vendor
  let key := strTrim r.scope_floc_key
  let d := deliv.find? (fun x => x.vendor == v && x.scope_floc_key == key)
  let ict := (d.map DelivAgg.image_count_total).getD 0
  trans_elig2_core minImages ict (r.is_active_assignment.getD false)

/-- Model of `eligibility_rules2.compute_transmission_eligibility`. -/
def compute_transmission_eligibility2 (minImages : Nat) (scope : List EScopeRow)
    (deliv : List DelivAgg) : List EligLineV2 :=
  scope.map (transmission_eligibility_row2 minImages deliv)

/-! ## Business key normalizer (`src/util/scope_keys.py` and the keying
helpers of `src/etl_001/delta.py`) -/

/-- A raw scope row: the two identity cells as nullable strings, the other
columns abstracted as `payload`. -/
structure RawRow where
  scope_id : Option String
  floc : Option String
  payload : String
deriving DecidableEq

/-- Model of `normalize_scope_id`: fill null with `""`, strip, and replace
the empty result with the `COMP` sentinel. -/
def normalize_scope_id (v : Option String) : String :=
  let s := strTrim (v.getD "")
  if s == "" then "COMP" else s

/-- Model of `normalize_floc`: fill null with `""` and strip. -/
def normalize_floc (v : Option String) : String := strTrim (v.getD "")

/-- A row after `add_business_key`: normalized identity columns plus the
derived `_key`. -/
structure BKRow where
  scope_id : String
  floc : String
  key : String
  payload : String
deriving DecidableEq

/-- Model of `add_business_key`. -/
def add_business_key (rows : List RawRow) : List BKRow :=
  rows.map (fun r =>
    let s := normalize_scope_id r.scope_id
    let f := normalize_floc r.floc
    ⟨s, f, s ++ "|" ++ f, r.payload⟩)

/-- Scope normalization of `_distribution_keyed`: strip, then map `""`,
`"nan"` and `"NaT"` to null, then `fillna("COMP")`. -/
def dist_scope_norm (v : Option String) : String :=
  match v with
  | none => "COMP"
  | some s =>
    let t := strTrim s
    if t == "" || t == "nan" || t == "NaT" then "COMP" else t

/-- A keyed delta row: the floc is not null-filled, so the derived key is
null whenever the floc is. -/
structure DKRow where
  scope_id : String
  floc : Option String
  key : Option String
  payload : String
deriving DecidableEq

/-- Model of the key derivation of `_distribution_keyed`. -/
def _distribution_keyed (rows : List RawRow) : List DKRow :=
  rows.map (fun r =>
    let s := dist_scope_norm r.scope_id
    let f := r.floc.map strTrim
    ⟨s, f, f.map (fun x => s ++ "|" ++ x), r.payload⟩)

/-- Row filter of `_transmission_keyed`: blank scope ids are placeholders
and are dropped (`notna` and not `""` after strip). -/
def trans_keep (v : Option String) : Bool :=
  match v with
  | none => false
  | some s => !(strTrim s == "")

/-- Model of the key derivation of `_transmission_keyed` (fallback case with
a single scope column; the melt case filters blank package cells the same
way). -/
def _transmission_keyed (rows : List RawRow) : List DKRow :=
  (rows.filter (fun r => trans_keep r.scope_id)).map (fun r =>
    let s := strTrim (r.scope_id.getD "")
    let f := r.floc.map strTrim
    ⟨s, f, f.map (fun x => s ++ "|" ++ x), r.payload⟩)

/-! ## Theorems for the specification claims -/

def evRemovalSample : Event :=
  ⟨"V1", "COMP|LOC1", some "removal", some 20240110, some "2024-01-09",
    some "r7", "a"⟩

def evMoveSample : Event :=
  ⟨"V1", "COMP|LOC1", some "move_to_helo", some 20240110, some "2024-01-09",
    some "r7", "b"⟩

def droneRowSample : ARow := ⟨"V1", "L1", "S1", "S1|L1", "DRONE", false, "drone-data"⟩

def heloRowSample : ARow := ⟨"V1", "L1", "S1", "S1|L1", "HELO", true, "helo-data"⟩

def curRowSampleB : SRow := ⟨"S1|LOC2", true, [("NOTES", Cell.strv "b")]⟩

def prevRowSampleB : SRow := ⟨"S1|LOC2", false, [("NOTES", Cell.strv "a")]⟩

/-! ## Theorems -/

theorem charToNat_injective {a b : Char} (h : a.toNat = b.toNat) : a = b :=
  Char.eq_of_val_eq (UInt32.toNat.inj h)

theorem strCodes_injective {a b : String} (h : strCodes a = strCodes b) : a = b := by
  have hd : a.data = b.data :=
    List.map_injective_iff.mpr (fun _ _ hxy => charToNat_injective hxy) h
  cases a; cases b; simp_all

theorem sortStrings_perm (l : List String) : (sortStrings l).Perm l :=
  List.perm_insertionSort strLE l

theorem sortStrings_eq_of_perm {l1 l2 : List String} (h : l1.Perm l2) :
    sortStrings l1 = sortStrings l2 :=
  List.eq_of_perm_of_sorted
    (((List.perm_insertionSort strLE l1).trans h).trans
      (List.perm_insertionSort strLE l2).symm)
    (List.sorted_insertionSort strLE l1) (List.sorted_insertionSort strLE l2)

theorem mem_of_mem_dedupeBy {α κ : Type} [DecidableEq κ] {key : α → κ}
    {l : List α} {seen : List κ} {o : α} (h : o ∈ dedupeBy key l seen) :
    o ∈ l := by
  induction l generalizing seen with
  | nil => simp [dedupeBy] at h
  | cons a t ih =>
    simp only [dedupeBy] at h
    split at h
    · exact List.mem_cons_of_mem a (ih h)
    · rcases List.mem_cons.mp h with h' | h'
      · exact h' ▸ List.mem_cons_self a t
      · exact List.mem_cons_of_mem a (ih h')

theorem key_not_seen_of_mem_dedupeBy {α κ : Type} [DecidableEq κ] {key : α → κ}
    {l : List α} {seen : List κ} {o : α} (h : o ∈ dedupeBy key l seen) :
    key o ∉ seen := by
  induction l generalizing seen with
  | nil => simp [dedupeBy] at h
  | cons a t ih =>
    simp only [dedupeBy] at h
    split at h
    · exact ih h
    · rcases List.mem_cons.mp h with h' | h'
      · subst h'; assumption
      · intro hmem
        exact ih h' (List.mem_cons_of_mem _ hmem)

theorem mem_keys_dedupeBy {α κ : Type} [DecidableEq κ] {key : α → κ}
    {l : List α} {seen : List κ} {k : κ} :
    k ∈ (dedupeBy key l seen).map key ↔ k ∈ l.map key ∧ k ∉ seen := by
  induction l generalizing seen with
  | nil => simp [dedupeBy]
  | cons a t ih =>
    simp only [dedupeBy]
    split
    · rename_i hseen
      rw [ih]
      simp only [List.map_cons, List.mem_cons]
      constructor
      · rintro ⟨h1, h2⟩; exact ⟨Or.inr h1, h2⟩
      · rintro ⟨h1 | h1, h2⟩
        · exact absurd (h1 ▸ hseen) h2
        · exact ⟨h1, h2⟩
    · rename_i hseen
      simp only [List.map_cons, List.mem_cons, ih]
      constructor
      · rintro (h | ⟨h1, h2⟩)
        · exact ⟨Or.inl h, h ▸ hseen⟩
        · exact ⟨Or.inr h1, fun hc => h2 (Or.inr hc)⟩
      · rintro ⟨h1 | h1, h2⟩
        · exact Or.inl h1
        · by_cases hk : k = key a
          · exact Or.inl hk
          · exact Or.inr ⟨h1, by simp [hk, h2]⟩

theorem nodup_keys_dedupeBy {α κ : Type} [DecidableEq κ] (key : α → κ)
    (l : List α) (seen : List κ) :
    ((dedupeBy key l seen).map key).Nodup := by
  induction l generalizing seen with
  | nil => simp [dedupeBy]
  | cons a t ih =>
    simp only [dedupeBy]
    split
    · exact ih seen
    · simp only [List.map_cons, List.nodup_cons]
      refine ⟨fun hc => ?_, ih (key a :: seen)⟩
      exact (mem_keys_dedupeBy.mp hc).2 (List.mem_cons_self _ _)

/-- A row that survives the key-dedupe of a sorted list is (weakly) preferred,
under the sort relation, over every row of the list that shares its key. -/
theorem dedupeBy_best {α κ : Type} [DecidableEq κ] {key : α → κ}
    {r : α → α → Prop} {l : List α} {seen : List κ} {o : α}
    (hl : l.Pairwise r) (ho : o ∈ dedupeBy key l seen) :
    ∀ e ∈ l, key e = key o → e = o ∨ r o e := by
  induction l generalizing seen with
  | nil => simp [dedupeBy] at ho
  | cons a t ih =>
    have hpair := List.pairwise_cons.mp hl
    simp only [dedupeBy] at ho
    split at ho
    · rename_i hseen
      intro e he hk
      rcases List.mem_cons.mp he with h' | h'
      · exact absurd (hk ▸ h' ▸ hseen) (key_not_seen_of_mem_dedupeBy ho)
      · exact ih hpair.2 ho e h' hk
    · rename_i hseen
      rcases List.mem_cons.mp ho with h' | h'
      · subst h'
        intro e he _
        rcases List.mem_cons.mp he with h'' | h''
        · exact Or.inl h''
        · exact Or.inr (hpair.1 e h'')
      · have hno := key_not_seen_of_mem_dedupeBy h'
        intro e he hk
        rcases List.mem_cons.mp he with h'' | h''
        · exfalso
          apply hno
          rw [← hk, h'']
          exact List.mem_cons_self _ _
        · exact ih hpair.2 h' e h'' hk

theorem lookup_map_snd {β γ : Type} (f : β → γ) (l : List (String × β))
    (c : String) :
    (l.map (fun p => (p.1, f p.2))).lookup c = (l.lookup c).map f := by
  induction l with
  | nil => rfl
  | cons a t ih =>
    obtain ⟨k, v⟩ := a
    by_cases h : c == k
    · simp [List.lookup, h]
    · simp [List.lookup, h, ih]

theorem lookup_perm {β : Type} {l1 l2 : List (String × β)} (h : l1.Perm l2)
    (hn : (l1.map Prod.fst).Nodup) (c : String) :
    l1.lookup c = l2.lookup c := by
  induction h with
  | nil => rfl
  | cons x _ ih =>
    obtain ⟨k, v⟩ := x
    have hn2 := (List.nodup_cons.mp (by rw [List.map_cons] at hn; exact hn)).2
    by_cases hx : c == k
    · simp [List.lookup, hx]
    · simp only [List.lookup, hx]
      exact ih hn2
  | swap x y l =>
    obtain ⟨k1, v1⟩ := x
    obtain ⟨k2, v2⟩ := y
    have hxy : k2 ≠ k1 := by
      rw [List.map_cons, List.map_cons] at hn
      exact fun hc =>
        (List.nodup_cons.mp hn).1 (by rw [hc]; exact List.mem_cons_self _ _)
    by_cases hx : c == k1 <;> by_cases hy : c == k2
    · exact absurd ((beq_iff_eq.mp hy).symm.trans (beq_iff_eq.mp hx)) hxy
    · simp [List.lookup, hx, hy]
    · simp [List.lookup, hx, hy]
    · simp [List.lookup, hx, hy]
  | trans p1 p2 ih1 ih2 =>
    rw [ih1 hn, ih2 ((p1.map Prod.fst).nodup_iff.mp hn)]

/-- Column-order permutation invariance of the per-row hash: permuting the
columns of the input row leaves the signature unchanged. -/
theorem row_hash_perm {row1 row2 : List (String × Cell)}
    (h : row1.Perm row2) (hn : (row1.map Prod.fst).Nodup) :
    row_hash row1 = row_hash row2 := by
  unfold row_hash rowSignature rowCanonical reindexedValues
  rw [sortStrings_eq_of_perm (h.map Prod.fst)]
  apply congrArg sha256Hex
  apply congrArg (String.intercalate "|")
  exact List.map_congr_left (fun c _ => by rw [lookup_perm h hn c])

theorem contains_iff_mem {α : Type} [BEq α] [LawfulBEq α] (l : List α) (a : α) :
    l.contains a = true ↔ a ∈ l := by
  simp [List.contains, List.elem_iff]

theorem find?_key_of_mem {s : List SRow} (hs : (keysOf s).Nodup) {r : SRow}
    (hr : r ∈ s) : s.find? (fun x => x.key == r.key) = some r := by
  induction s with
  | nil => simp at hr
  | cons a t ih =>
    rw [keysOf, List.map_cons] at hs
    have hs' := List.nodup_cons.mp hs
    rcases List.mem_cons.mp hr with h | h
    · subst h
      simp [List.find?]
    · have hne : ¬(a.key == r.key) = true := by
        intro hc
        exact hs'.1 (beq_iff_eq.mp hc ▸ List.mem_map_of_mem SRow.key h)
      simp only [List.find?, hne]
      exact ih hs'.2 h

theorem find?_key_of_not_mem {s : List SRow} {k : String}
    (h : k ∉ keysOf s) : s.find? (fun x => x.key == k) = none := by
  apply List.find?_eq_none.mpr
  intro r hr hc
  exact h (beq_iff_eq.mp hc ▸ List.mem_map_of_mem SRow.key hr)

theorem activeOf_of_mem {s : List SRow} (hs : (keysOf s).Nodup) {r : SRow}
    (hr : r ∈ s) : activeOf s r.key = r.isActive := by
  rw [activeOf, find?_key_of_mem hs hr]
  rfl

theorem sigOfKey_of_mem {cols : List String} {s : List SRow}
    (hs : (keysOf s).Nodup) {r : SRow} (hr : r ∈ s) :
    sigOfKey cols s r.key = rowSignature cols r.attrs := by
  rw [sigOfKey, find?_key_of_mem hs hr]
  rfl

theorem strTrim_empty : strTrim "" = "" := rfl

theorem append_bar_ne_empty (a f : String) : a ++ "|" ++ f ≠ "" := by
  intro h
  have hd : (a ++ "|" ++ f).data = ("" : String).data := congrArg String.data h
  rw [String.data_append, String.data_append] at hd
  simp at hd

/-- C9: `add_business_key` is total (one output row per input row) and every
output row carries the non-null unit key `scope_id ++ "|" ++ floc` built from
the trimmed identity columns; a null or blank scope id becomes the `COMP`
sentinel in the blank-becomes-sentinel (distribution) domain, both in
`normalize_scope_id` and in the delta keying, while the blank-is-placeholder
(transmission) keying instead keeps exactly the rows whose scope id is
non-empty after trimming. -/
theorem c9_business_key_normalization :
    (∀ rows : List RawRow, (add_business_key rows).length = rows.length) ∧
    (∀ rows : List RawRow, ∀ b ∈ add_business_key rows,
      b.key = b.scope_id ++ "|" ++ b.floc ∧ b.key ≠ "" ∧
      ∃ r ∈ rows, b.scope_id = normalize_scope_id r.scope_id ∧
        b.floc = strTrim (r.floc.getD "") ∧ b.payload = r.payload) ∧
    (∀ v : Option String,
      (strTrim (v.getD "") = "" → normalize_scope_id v = "COMP") ∧
      (strTrim (v.getD "") ≠ "" → normalize_scope_id v = strTrim (v.getD ""))) ∧
    (∀ v : Option String, strTrim (v.getD "") = "" → dist_scope_norm v = "COMP") ∧
    (∀ v : Option String, trans_keep v = true ↔ strTrim (v.getD "") ≠ "") ∧
    (∀ rows : List RawRow, ∀ d ∈ _transmission_keyed rows,
      d.scope_id ≠ "" ∧ ∀ f, d.floc = some f → d.key = some (d.scope_id ++ "|" ++ f)) ∧
    (∀ rows : List RawRow, ∀ d ∈ _distribution_keyed rows,
      d.scope_id ≠ "" ∧ ∀ f, d.floc = some f → d.key = some (d.scope_id ++ "|" ++ f)) := by
  refine ⟨?_, ?_, ?_, ?_, ?_, ?_, ?_⟩
  · intro rows
    simp [add_business_key]
  · intro rows b hb
    rw [add_business_key, List.mem_map] at hb
    obtain ⟨r, hr, hre⟩ := hb
    subst hre
    refine ⟨rfl, append_bar_ne_empty _ _, r, hr, rfl, rfl, rfl⟩
  · intro v
    constructor
    · intro h
      simp [normalize_scope_id, h]
    · intro h
      simp only [normalize_scope_id]
      rw [if_neg (by simpa using h)]
  · intro v h
    match v with
    | none => rfl
    | some s =>
      simp only [Option.getD] at h
      simp [dist_scope_norm, h]
  · intro v
    match v with
    | none => simp [trans_keep, strTrim_empty]
    | some s => simp [trans_keep]
  · intro rows d hd
    rw [_transmission_keyed, List.mem_map] at hd
    obtain ⟨r, hr, hre⟩ := hd
    have hkeep := (List.mem_filter.mp hr).2
    subst hre
    constructor
    · match hv : r.scope_id with
      | none => rw [hv] at hkeep; simp [trans_keep] at hkeep
      | some s =>
        rw [hv] at hkeep
        simp only [trans_keep, Bool.not_eq_true', beq_eq_false_iff_ne] at hkeep
        simpa using hkeep
    · intro f hf
      simp only at hf
      simp [hf]
  · intro rows d hd
    rw [_distribution_keyed, List.mem_map] at hd
    obtain ⟨r, hr, hre⟩ := hd
    subst hre
    constructor
    · match hv : r.scope_id with
      | none => simp [dist_scope_norm]
      | some s =>
        simp only [dist_scope_norm]
        split
        · simp
        · rename_i hcond
          simp only [Bool.or_eq_true, beq_iff_eq, not_or] at hcond
          simpa using hcond.1.1
    · intro f hf
      simp only at hf
      simp [hf]

/-- Witness for `c9_business_key_normalization` at concrete rows: a blank
scope id is normalized to the `COMP` sentinel and keyed `COMP|LOC1`, and the
transmission keying drops the blank-scope row. -/
theorem c9_business_key_normalization_witness :
    (add_business_key [⟨some "  ", some "LOC1", "p"⟩]).length = 1 ∧
    (∀ b ∈ add_business_key [⟨some "  ", some "LOC1", "p"⟩],
      b.key = b.scope_id ++ "|" ++ b.floc ∧ b.key ≠ "" ∧
      ∃ r ∈ [(⟨some "  ", some "LOC1", "p"⟩ : RawRow)],
        b.scope_id = normalize_scope_id r.scope_id ∧
        b.floc = strTrim (r.floc.getD "") ∧ b.payload = r.payload) ∧
    normalize_scope_id (some "  ") = "COMP" ∧
    dist_scope_norm (some "  ") = "COMP" ∧
    (trans_keep (some "  ") = true ↔ strTrim ((some "  ").getD "") ≠ "") ∧
    (∀ d ∈ _transmission_keyed [⟨some "  ", some "LOC1", "p"⟩],
      d.scope_id ≠ "" ∧ ∀ f, d.floc = some f → d.key = some (d.scope_id ++ "|" ++ f)) ∧
    (∀ d ∈ _distribution_keyed [⟨none, some "LOC1", "p"⟩],
      d.scope_id ≠ "" ∧ ∀ f, d.floc = some f → d.key = some (d.scope_id ++ "|" ++ f)) :=
  ⟨c9_business_key_normalization.1 _,
   c9_business_key_normalization.2.1 _,
   (c9_business_key_normalization.2.2.1 (some "  ")).1 (by decide),
   c9_business_key_normalization.2.2.2.1 (some "  ") (by decide),
   c9_business_key_normalization.2.2.2.2.1 (some "  "),
   c9_business_key_normalization.2.2.2.2.2.1 _,
   c9_business_key_normalization.2.2.2.2.2.2 _⟩

/-- C1 (code bug): the bucket precedence that the spec states, with the COMP
sentinel overriding the method buckets and the EZ_POLE override winning over
everything, is the one implemented by `eligibility_rules2.py`
(`distribution_eligibility_row2`).  `pipeline.py`, however, imports
`eligibility_rules.py` (`distribution_eligibility_row`), which applies the
COMP override first, so a sentinel-scoped row whose assignment status is
`ACTIVE_HELO` is classified `DIST_HELO` instead of `DIST_COMP`, and no
EZ_POLE override exists on that path at all. -/
theorem c1_bucket_precedence_divergence :
    (distribution_eligibility_row 8 [] []
      ⟨"V1", "COMP", "F1", "COMP|F1", "ACTIVE_HELO", "HELO", some true,
        some "ED_POLE"⟩).program_bucket = "DIST_HELO" ∧
    (distribution_eligibility_row2 8 [] []
      ⟨"V1", "COMP", "F1", "COMP|F1", "ACTIVE_HELO", "HELO", some true,
        some "ED_POLE"⟩).program_bucket = "DIST_COMP" ∧
    (distribution_eligibility_row2 8 [] []
      ⟨"V1", "COMP", "F1", "COMP|F1", "ACTIVE_HELO", "HELO", some true,
        some "EZ_POLE"⟩).program_bucket = "DIST_COMP" ∧
    (distribution_eligibility_row2 8 [] []
      ⟨"V1", "COMP", "F1", "COMP|F1", "ACTIVE_HELO", "HELO", some true,
        some "EZ_POLE"⟩).billing_bucket = "NON_BILLABLE" ∧
    (distribution_eligibility_row2 8 [] []
      ⟨"V1", "COMP", "F1", "COMP|F1", "ACTIVE_HELO", "HELO", some true,
        some "EZ_POLE"⟩).is_billable = false := by
  refine ⟨?_, ?_, ?_, ?_, ?_⟩ <;> decide

/-- C6: the event overlay forces `REMOVED`/inactive on a `removal` event,
`ACTIVE_HELO`/active on a `move_to_helo` event for a HELO-method row,
`MOVED_TO_HELO`/inactive on a `move_to_helo` event for a DRONE-method row,
and with no event keeps the base-active flag with status `ACTIVE_<method>`
or `INACTIVE`. -/
theorem c6_event_overlay (events : List Event) (r : ARow) :
    (latest_event_type_for events r.vendor r.scope_floc_key = some "removal" →
      (_apply_events_row (latest_event_type_for events r.vendor r.scope_floc_key)
          r).is_active_assignment = false ∧
      (_apply_events_row (latest_event_type_for events r.vendor r.scope_floc_key)
          r).assignment_status = some "REMOVED") ∧
    (latest_event_type_for events r.vendor r.scope_floc_key = some "move_to_helo" →
      (r.assignment_method = "HELO" →
        (_apply_events_row (latest_event_type_for events r.vendor r.scope_floc_key)
            r).is_active_assignment = true ∧
        (_apply_events_row (latest_event_type_for events r.vendor r.scope_floc_key)
            r).assignment_status = some "ACTIVE_HELO") ∧
      (r.assignment_method = "DRONE" →
        (_apply_events_row (latest_event_type_for events r.vendor r.scope_floc_key)
            r).is_active_assignment = false ∧
        (_apply_events_row (latest_event_type_for events r.vendor r.scope_floc_key)
            r).assignment_status = some "MOVED_TO_HELO")) ∧
    (latest_event_type_for events r.vendor r.scope_floc_key = none →
      (_apply_events_row (latest_event_type_for events r.vendor r.scope_floc_key)
          r).is_active_assignment = r.base_is_active ∧
      (r.base_is_active = true →
        (r.assignment_method = "HELO" →
          (_apply_events_row (latest_event_type_for events r.vendor r.scope_floc_key)
              r).assignment_status = some "ACTIVE_HELO") ∧
        (r.assignment_method = "DRONE" →
          (_apply_events_row (latest_event_type_for events r.vendor r.scope_floc_key)
              r).assignment_status = some "ACTIVE_DRONE")) ∧
      (r.base_is_active = false →
        (_apply_events_row (latest_event_type_for events r.vendor r.scope_floc_key)
            r).assignment_status = some "INACTIVE")) := by
  refine ⟨?_, ?_, ?_⟩
  · intro h
    rw [h]
    constructor <;> simp [_apply_events_row]
  · intro h
    rw [h]
    constructor
    · intro hm
      constructor <;> simp [_apply_events_row, hm]
    · intro hm
      constructor <;> simp [_apply_events_row, hm]
  · intro h
    rw [h]
    refine ⟨by simp [_apply_events_row], ?_, ?_⟩
    · intro hb
      constructor <;> intro hm <;> simp [_apply_events_row, hm, hb]
    · intro hb
      simp [_apply_events_row, hb]

/-- Witness for `c6_event_overlay`: a drone-method row hit by a `removal`
event becomes inactive `REMOVED`, and the same row with no event keeps its
base-active flag with status `ACTIVE_DRONE`. -/
theorem c6_event_overlay_witness :
    ((_apply_events_row (latest_event_type_for
        [⟨"V1", "S1|L1", some "removal", some 20240110, some "2024-01-10",
          some "r1", "p"⟩]
        "V1" "S1|L1")
        ⟨"V1", "L1", "S1", "S1|L1", "DRONE", true, "q"⟩).is_active_assignment
      = false ∧
     (_apply_events_row (latest_event_type_for
        [⟨"V1", "S1|L1", some "removal", some 20240110, some "2024-01-10",
          some "r1", "p"⟩]
        "V1" "S1|L1")
        ⟨"V1", "L1", "S1", "S1|L1", "DRONE", true, "q"⟩).assignment_status
      = some "REMOVED") ∧
    ((_apply_events_row (latest_event_type_for ([] : List Event) "V1" "S1|L1")
        ⟨"V1", "L1", "S1", "S1|L1", "DRONE", true, "q"⟩).is_active_assignment
      = true ∧
     (_apply_events_row (latest_event_type_for ([] : List Event) "V1" "S1|L1")
        ⟨"V1", "L1", "S1", "S1|L1", "DRONE", true, "q"⟩).assignment_status
      = some "ACTIVE_DRONE") :=
  ⟨(c6_event_overlay _ _).1 (by decide),
   ⟨((c6_event_overlay ([] : List Event)
        ⟨"V1", "L1", "S1", "S1|L1", "DRONE", true, "q"⟩).2.2 (by decide)).1,
    (((c6_event_overlay ([] : List Event)
        ⟨"V1", "L1", "S1", "S1|L1", "DRONE", true, "q"⟩).2.2 (by decide)).2.1
      rfl).2 rfl⟩⟩

theorem intercalate_nil (s : String) : s.intercalate [] = "" := rfl

theorem bool_of_reasons_ne {a : Bool} {s : String} (h : a = true → s = "")
    (hs : s ≠ "") : a = false := by
  cases ha : a
  · rfl
  · exact absurd (h ha) hs

theorem dist_elig_core_sound (minImages ict : Nat) (hAer hGr isActive : Bool)
    (sid status : String) :
    (dist_elig_core minImages ict hAer hGr isActive sid status).approved_to_invoice
      = true →
    (dist_elig_core minImages ict hAer hGr isActive sid status).block_reasons
      = "" := by
  rcases le_or_lt minImages ict with hIm | hIm
  · have h1 : decide (minImages ≤ ict) = true := decide_eq_true hIm
    have h2 : decide (ict < minImages) = false :=
      decide_eq_false (Nat.not_lt.mpr hIm)
    simp only [dist_elig_core, h1, h2]
    cases hb1 : (sid == "COMP") <;> cases hb2 : (status == "ACTIVE_HELO") <;>
      cases hb3 : (status == "ACTIVE_DRONE") <;> cases hAer <;> cases hGr <;>
      cases isActive <;> simp [_join_reasons, intercalate_nil]
  · have h1 : decide (minImages ≤ ict) = false :=
      decide_eq_false (Nat.not_le.mpr hIm)
    have h2 : decide (ict < minImages) = true := decide_eq_true hIm
    simp only [dist_elig_core, h1, h2]
    cases hb1 : (sid == "COMP") <;> cases hb2 : (status == "ACTIVE_HELO") <;>
      cases hb3 : (status == "ACTIVE_DRONE") <;> cases hAer <;> cases hGr <;>
      cases isActive <;> simp [_join_reasons, intercalate_nil]

theorem trans_elig_core_sound (minImages ict : Nat) (isActive : Bool) :
    (trans_elig_core minImages ict isActive).approved_to_invoice = true →
    (trans_elig_core minImages ict isActive).block_reasons = "" := by
  rcases le_or_lt minImages ict with hIm | hIm
  · have h1 : decide (minImages ≤ ict) = true := decide_eq_true hIm
    have h2 : decide (ict < minImages) = false :=
      decide_eq_false (Nat.not_lt.mpr hIm)
    simp only [trans_elig_core, h1, h2]
    cases isActive <;> simp [_join_reasons, intercalate_nil]
  · have h1 : decide (minImages ≤ ict) = false :=
      decide_eq_false (Nat.not_le.mpr hIm)
    have h2 : decide (ict < minImages) = true := decide_eq_true hIm
    simp only [trans_elig_core, h1, h2]
    cases isActive <;> simp [_join_reasons, intercalate_nil]

theorem dist_elig2_core_sound (minImages ict : Nat) (hAer hGr isActive : Bool)
    (sid status obj : String) :
    (dist_elig2_core minImages ict hAer hGr isActive sid status obj).approved_to_invoice
      = true →
    (dist_elig2_core minImages ict hAer hGr isActive sid status obj).block_reasons
      = "" := by
  rcases le_or_lt minImages ict with hIm | hIm
  · have h1 : decide (minImages ≤ ict) = true := decide_eq_true hIm
    have h2 : decide (ict < minImages) = false :=
      decide_eq_false (Nat.not_lt.mpr hIm)
    simp only [dist_elig2_core, h1, h2]
    cases hb1 : (sid == "COMP") <;> cases hb2 : (status == "ACTIVE_HELO") <;>
      cases hb3 : (status == "ACTIVE_DRONE") <;> cases hb4 : (obj == "EZ_POLE") <;>
      cases hAer <;> cases hGr <;> cases isActive <;>
      simp [_join_reasons2, reason_names2, intercalate_nil]
  · have h1 : decide (minImages ≤ ict) = false :=
      decide_eq_false (Nat.not_le.mpr hIm)
    have h2 : decide (ict < minImages) = true := decide_eq_true hIm
    simp only [dist_elig2_core, h1, h2]
    cases hb1 : (sid == "COMP") <;> cases hb2 : (status == "ACTIVE_HELO") <;>
      cases hb3 : (status == "ACTIVE_DRONE") <;> cases hb4 : (obj == "EZ_POLE") <;>
      cases hAer <;> cases hGr <;> cases isActive <;>
      simp [_join_reasons2, reason_names2, intercalate_nil]

theorem trans_elig2_core_sound (minImages ict : Nat) (isActive : Bool) :
    (trans_elig2_core minImages ict isActive).approved_to_invoice = true →
    (trans_elig2_core minImages ict isActive).block_reasons = "" := by
  rcases le_or_lt minImages ict with hIm | hIm
  · have h1 : decide (minImages ≤ ict) = true := decide_eq_true hIm
    have h2 : decide (ict < minImages) = false :=
      decide_eq_false (Nat.not_lt.mpr hIm)
    simp only [trans_elig2_core, h1, h2]
    cases isActive <;> simp [_join_reasons2, reason_names2, intercalate_nil]
  · have h1 : decide (minImages ≤ ict) = false :=
      decide_eq_false (Nat.not_le.mpr hIm)
    have h2 : decide (ict < minImages) = true := decide_eq_true hIm
    simp only [trans_elig2_core, h1, h2]
    cases isActive <;> simp [_join_reasons2, reason_names2, intercalate_nil]

theorem reason_names2_mem (flags : List (String × Option Bool)) (name : String) :
    name ∈ reason_names2 flags ↔ (name, some true) ∈ flags := by
  simp only [reason_names2, List.mem_map, List.mem_filter, beq_iff_eq]
  constructor
  · rintro ⟨⟨n, b⟩, ⟨hmem, hb⟩, hn⟩
    simp only at hb hn
    subst hb
    subst hn
    exact hmem
  · intro h
    exact ⟨(name, some true), ⟨h, rfl⟩, rfl⟩

/-- C8: in every eligibility line of both rule modules and both asset
classes, approval implies an empty `block_reasons`, a non-empty
`block_reasons` implies non-approval, and (in the NA-safe joiner) a flag
name appears among the joined reasons exactly when its value is literally
`True`, so null flag values are resolved to not-blocking and never raise. -/
theorem c8_approved_blockreasons (minImages : Nat) (deliv : List DelivAgg)
    (az : List AzureFloc) (r : EScopeRow) :
    (((distribution_eligibility_row minImages deliv az r).approved_to_invoice = true →
        (distribution_eligibility_row minImages deliv az r).block_reasons = "") ∧
      ((distribution_eligibility_row minImages deliv az r).block_reasons ≠ "" →
        (distribution_eligibility_row minImages deliv az r).approved_to_invoice = false)) ∧
    (((transmission_eligibility_row minImages deliv r).approved_to_invoice = true →
        (transmission_eligibility_row minImages deliv r).block_reasons = "") ∧
      ((transmission_eligibility_row minImages deliv r).block_reasons ≠ "" →
        (transmission_eligibility_row minImages deliv r).approved_to_invoice = false)) ∧
    (((distribution_eligibility_row2 minImages deliv az r).approved_to_invoice = true →
        (distribution_eligibility_row2 minImages deliv az r).block_reasons = "") ∧
      ((distribution_eligibility_row2 minImages deliv az r).block_reasons ≠ "" →
        (distribution_eligibility_row2 minImages deliv az r).approved_to_invoice = false)) ∧
    (((transmission_eligibility_row2 minImages deliv r).approved_to_invoice = true →
        (transmission_eligibility_row2 minImages deliv r).block_reasons = "") ∧
      ((transmission_eligibility_row2 minImages deliv r).block_reasons ≠ "" →
        (transmission_eligibility_row2 minImages deliv r).approved_to_invoice = false)) ∧
    (∀ (flags : List (String × Option Bool)) (name : String),
      name ∈ reason_names2 flags ↔ (name, some true) ∈ flags) := by
  refine ⟨⟨?_, ?_⟩, ⟨?_, ?_⟩, ⟨?_, ?_⟩, ⟨?_, ?_⟩, reason_names2_mem⟩
  · exact dist_elig_core_sound _ _ _ _ _ _ _
  · exact bool_of_reasons_ne (dist_elig_core_sound _ _ _ _ _ _ _)
  · exact trans_elig_core_sound _ _ _
  · exact bool_of_reasons_ne (trans_elig_core_sound _ _ _)
  · exact dist_elig2_core_sound _ _ _ _ _ _ _ _
  · exact bool_of_reasons_ne (dist_elig2_core_sound _ _ _ _ _ _ _ _)
  · exact trans_elig2_core_sound _ _ _
  · exact bool_of_reasons_ne (trans_elig2_core_sound _ _ _)

/-- Witness for `c8_approved_blockreasons`: an active drone row with full
evidence is approved with empty reasons, and an inactive row with non-empty
reasons is not approved; a null flag is not joined. -/
theorem c8_approved_blockreasons_witness :
    (distribution_eligibility_row2 8
        [⟨"V1", "S1|F1", 10, 1, true, true⟩]
        [⟨"F1", true, true, true⟩]
        ⟨"V1", "S1", "F1", "S1|F1", "ACTIVE_DRONE", "DRONE", some true,
          some "ED_POLE"⟩).block_reasons = "" ∧
    (distribution_eligibility_row2 8
        [] []
        ⟨"V1", "S1", "F1", "S1|F1", "ACTIVE_DRONE", "DRONE", some false,
          some "ED_POLE"⟩).approved_to_invoice = false ∧
    ("X" ∈ reason_names2 [("X", (none : Option Bool))] ↔
      ("X", some true) ∈ [("X", (none : Option Bool))]) :=
  ⟨((c8_approved_blockreasons 8
      [⟨"V1", "S1|F1", 10, 1, true, true⟩]
      [⟨"F1", true, true, true⟩]
      ⟨"V1", "S1", "F1", "S1|F1", "ACTIVE_DRONE", "DRONE", some true,
        some "ED_POLE"⟩).2.2.1.1 (by decide)),
   ((c8_approved_blockreasons 8 [] []
      ⟨"V1", "S1", "F1", "S1|F1", "ACTIVE_DRONE", "DRONE", some false,
        some "ED_POLE"⟩).2.2.1.2 (by decide)),
   (c8_approved_blockreasons 8 [] []
      ⟨"V1", "S1", "F1", "S1|F1", "ACTIVE_DRONE", "DRONE", some false,
        some "ED_POLE"⟩).2.2.2.2 [("X", none)] "X"⟩

theorem mem_sorted_iff (l : List Event) (e : Event) :
    e ∈ List.insertionSort eventLE l ↔ e ∈ l :=
  (List.perm_insertionSort eventLE l).mem_iff

/-- C2: the event collapser emits one row per (vendor, unit key) — the
emitted key set is exactly the input key set with no duplicates — and each
emitted row has a maximal sort key (effective date, run date, event
priority, run id; descending, nulls last) among the input events sharing
its key; in particular a `removal` and a `move_to_helo` with equal
effective date from the same batch collapse to the `move_to_helo` event. -/
theorem c2_collapse_latest_events :
    (∀ l : List Event,
      ((_collapse_latest_events l).map eventKey).Nodup ∧
      (∀ k, k ∈ l.map eventKey ↔ k ∈ (_collapse_latest_events l).map eventKey) ∧
      (∀ o ∈ _collapse_latest_events l, o ∈ l ∧
        ∀ e ∈ l, eventKey e = eventKey o → sortKeyOf e ≤ sortKeyOf o)) ∧
    _collapse_latest_events [evRemovalSample, evMoveSample] = [evMoveSample] := by
  constructor
  · intro l
    refine ⟨nodup_keys_dedupeBy _ _ _, ?_, ?_⟩
    · intro k
      rw [_collapse_latest_events, mem_keys_dedupeBy]
      constructor
      · intro h
        refine ⟨?_, by simp⟩
        exact ((List.perm_insertionSort eventLE l).map eventKey).mem_iff.mpr h
      · rintro ⟨h, _⟩
        exact ((List.perm_insertionSort eventLE l).map eventKey).mem_iff.mp h
    · intro o ho
      have hos : o ∈ List.insertionSort eventLE l := mem_of_mem_dedupeBy ho
      refine ⟨(mem_sorted_iff l o).mp hos, ?_⟩
      intro e he hk
      have hes : e ∈ List.insertionSort eventLE l := (mem_sorted_iff l e).mpr he
      rcases dedupeBy_best (List.sorted_insertionSort eventLE l) ho e hes hk
        with h | h
      · rw [h]
      · exact h
  · decide

/-- Witness for `c2_collapse_latest_events`: on the two-event log the kept
row is the `move_to_helo` event and it dominates the `removal` event. -/
theorem c2_collapse_latest_events_witness :
    (evMoveSample ∈ [evRemovalSample, evMoveSample] ∧
      sortKeyOf evRemovalSample ≤ sortKeyOf evMoveSample) ∧
    (eventKey evMoveSample ∈ [evRemovalSample, evMoveSample].map eventKey ↔
      eventKey evMoveSample ∈
        (_collapse_latest_events [evRemovalSample, evMoveSample]).map eventKey) :=
  ⟨⟨((c2_collapse_latest_events.1 [evRemovalSample, evMoveSample]).2.2
      evMoveSample (by decide)).1,
    ((c2_collapse_latest_events.1 [evRemovalSample, evMoveSample]).2.2
      evMoveSample (by decide)).2 evRemovalSample (by decide) (by decide)⟩,
   (c2_collapse_latest_events.1 [evRemovalSample, evMoveSample]).2.1
     (eventKey evMoveSample)⟩

theorem collapse_mem_max {l : List Event} (hnt : NoFullTie l) {o : Event}
    (ho : o ∈ _collapse_latest_events l) :
    o ∈ l ∧ ∀ x ∈ l, eventKey x = eventKey o →
      x = o ∨ sortKeyOf x < sortKeyOf o := by
  have hos : o ∈ List.insertionSort eventLE l := mem_of_mem_dedupeBy ho
  have hol : o ∈ l := (mem_sorted_iff l o).mp hos
  refine ⟨hol, fun x hx hk => ?_⟩
  have hxs : x ∈ List.insertionSort eventLE l := (mem_sorted_iff l x).mpr hx
  rcases dedupeBy_best (List.sorted_insertionSort eventLE l) ho x hxs hk
    with h | h
  · exact Or.inl h
  · by_cases hsk : sortKeyOf x = sortKeyOf o
    · exact Or.inl (hnt x hx o hol hk hsk)
    · exact Or.inr (lt_of_le_of_ne h hsk)

theorem collapse_mem_char {l : List Event} (hnt : NoFullTie l) (e : Event) :
    e ∈ _collapse_latest_events l ↔
      e ∈ l ∧ ∀ x ∈ l, eventKey x = eventKey e →
        x = e ∨ sortKeyOf x < sortKeyOf e := by
  constructor
  · exact fun h => collapse_mem_max hnt h
  · rintro ⟨hel, hmax⟩
    have hkey : eventKey e ∈ (_collapse_latest_events l).map eventKey := by
      rw [_collapse_latest_events, mem_keys_dedupeBy]
      refine ⟨?_, by simp⟩
      exact ((List.perm_insertionSort eventLE l).map eventKey).mem_iff.mpr
        (List.mem_map_of_mem eventKey hel)
    obtain ⟨o, ho, hko⟩ := List.mem_map.mp hkey
    obtain ⟨hol, homax⟩ := collapse_mem_max hnt ho
    by_cases heo : o = e
    · exact heo ▸ ho
    · rcases hmax o hol hko with h1 | h1
      · exact absurd h1 heo
      · rcases homax e hel hko.symm with h2 | h2
        · exact absurd h2.symm heo
        · exact (lt_asymm h1 h2).elim

theorem noFullTie_perm {l1 l2 : List Event} (h : l1.Perm l2)
    (ht : NoFullTie l1) : NoFullTie l2 :=
  fun e1 h1 e2 h2 hk hs =>
    ht e1 (h.mem_iff.mpr h1) e2 (h.mem_iff.mpr h2) hk hs

/-- C10: two runs of the event collapser on logs that are row permutations
of each other keep the same set of rows, provided no two events of the log
fully tie on the key and all four sort fields (under a full tie, the kept
row is decided by input position, so this hypothesis is needed). -/
theorem c10_collapse_permutation_invariant (l1 l2 : List Event)
    (hperm : l1.Perm l2) (hnt : NoFullTie l1) :
    ∀ e : Event,
      e ∈ _collapse_latest_events l1 ↔ e ∈ _collapse_latest_events l2 := by
  intro e
  rw [collapse_mem_char hnt e, collapse_mem_char (noFullTie_perm hperm hnt) e]
  constructor
  · rintro ⟨h1, h2⟩
    exact ⟨hperm.mem_iff.mp h1, fun x hx => h2 x (hperm.mem_iff.mpr hx)⟩
  · rintro ⟨h1, h2⟩
    exact ⟨hperm.mem_iff.mpr h1, fun x hx => h2 x (hperm.mem_iff.mp hx)⟩

/-- Witness for `c10_collapse_permutation_invariant` on a reversed
two-event log with no full ties. -/
theorem c10_collapse_permutation_invariant_witness :
    [evRemovalSample, evMoveSample].Perm [evMoveSample, evRemovalSample] ∧
    NoFullTie [evRemovalSample, evMoveSample] ∧
    (evMoveSample ∈ _collapse_latest_events [evRemovalSample, evMoveSample] ↔
      evMoveSample ∈ _collapse_latest_events [evMoveSample, evRemovalSample]) :=
  ⟨List.Perm.swap evMoveSample evRemovalSample [], by decide,
   c10_collapse_permutation_invariant _ _
     (List.Perm.swap evMoveSample evRemovalSample []) (by decide) evMoveSample⟩

theorem methodPriority_helo : methodPriority "HELO" = 2 := by decide

/-- C5: when a HELO-method row and a DRONE-method row both exist for the
same (vendor, unit key) in the unioned current snapshots, the preference
reduction keeps exactly the whole HELO row for that key (every kept row with
that key is that row, and the key is kept), and after the row-wise event
overlay the output still has at most one row per (vendor, unit key). -/
theorem c5_prefer_helo_whole_row :
    (∀ (rows : List ARow) (k : String × String) (h : ARow),
      h ∈ rows → aKey h = k → h.assignment_method = "HELO" →
      (∃ d ∈ rows, aKey d = k ∧ d.assignment_method = "DRONE") →
      (∀ r ∈ rows, aKey r = k → r = h ∨ r.assignment_method = "DRONE") →
      ((∀ o ∈ _choose_preferred_assignment rows, aKey o = k → o = h) ∧
        ∃ o ∈ _choose_preferred_assignment rows, aKey o = k)) ∧
    (∀ (rows : List ARow) (events : List Event),
      ((_apply_events_to_assignments events
        (_choose_preferred_assignment rows)).map (fun o => aKey o.row)).Nodup) := by
  constructor
  · intro rows k h hh hkey hm _hd hall
    constructor
    · intro o ho hko
      have hos : o ∈ List.insertionSort methodLE rows := mem_of_mem_dedupeBy ho
      have hol : o ∈ rows := (List.perm_insertionSort methodLE rows).mem_iff.mp hos
      have hhs : h ∈ List.insertionSort methodLE rows :=
        (List.perm_insertionSort methodLE rows).mem_iff.mpr hh
      rcases dedupeBy_best (List.sorted_insertionSort methodLE rows) ho h hhs
        (by rw [hkey, hko]) with he | hle
      · exact he.symm
      · have h2 : methodPriority h.assignment_method ≤
            methodPriority o.assignment_method := hle
        rw [hm, methodPriority_helo] at h2
        have hoh : o.assignment_method = "HELO" := by
          by_cases hb : (o.assignment_method == "HELO") = true
          · exact beq_iff_eq.mp hb
          · exfalso
            have h3 : methodPriority o.assignment_method ≤ 1 := by
              rw [methodPriority, if_neg hb]
              split
              · exact le_refl 1
              · exact Nat.zero_le 1
            omega
        rcases hall o hol hko with he | hd
        · exact he
        · exact absurd (hoh ▸ hd) (by decide)
    · have hk : k ∈ (_choose_preferred_assignment rows).map aKey := by
        rw [_choose_preferred_assignment, mem_keys_dedupeBy]
        refine ⟨?_, by simp⟩
        exact ((List.perm_insertionSort methodLE rows).map aKey).mem_iff.mpr
          (hkey ▸ List.mem_map_of_mem aKey hh)
      obtain ⟨o, ho, hko⟩ := List.mem_map.mp hk
      exact ⟨o, ho, hko⟩
  · intro rows events
    rw [_apply_events_to_assignments, List.map_map]
    have he : ((fun o => aKey o.row) ∘ fun r =>
        _apply_events_row (latest_event_type_for events r.vendor r.scope_floc_key) r)
        = aKey := funext fun r => rfl
    rw [he]
    exact nodup_keys_dedupeBy _ _ _

/-- Witness for `c5_prefer_helo_whole_row` on a two-row union holding a
DRONE and a HELO row for the same key. -/
theorem c5_prefer_helo_whole_row_witness :
    ((∀ o ∈ _choose_preferred_assignment [droneRowSample, heloRowSample],
        aKey o = ("V1", "S1|L1") → o = heloRowSample) ∧
      ∃ o ∈ _choose_preferred_assignment [droneRowSample, heloRowSample],
        aKey o = ("V1", "S1|L1")) ∧
    ((_apply_events_to_assignments []
      (_choose_preferred_assignment [droneRowSample, heloRowSample])).map
        (fun o => aKey o.row)).Nodup :=
  ⟨c5_prefer_helo_whole_row.1 [droneRowSample, heloRowSample] ("V1", "S1|L1")
      heloRowSample (by decide) (by decide) (by decide) (by decide) (by decide),
   c5_prefer_helo_whole_row.2 [droneRowSample, heloRowSample] []⟩

theorem mem_map_pair_iff {α : Type} (f : α → String) (l : List α) (r : α)
    (t : String) :
    (r, t) ∈ l.map (fun x => (x, f x)) ↔ r ∈ l ∧ t = f r := by
  rw [List.mem_map]
  constructor
  · rintro ⟨x, hx, he⟩
    have h1 : x = r := congrArg Prod.fst he
    subst h1
    exact ⟨hx, (congrArg Prod.snd he).symm⟩
  · rintro ⟨hr, ht⟩
    exact ⟨r, hr, by rw [ht]⟩

theorem contains_eq_false_iff {α : Type} [BEq α] [LawfulBEq α]
    (l : List α) (a : α) : l.contains a = false ↔ a ∉ l := by
  constructor
  · intro h hmem
    rw [(contains_iff_mem l a).mpr hmem] at h
    cases h
  · intro h
    cases hc : l.contains a
    · rfl
    · exact absurd ((contains_iff_mem l a).mp hc) h

theorem mem_reactivatedKeys {cur prev : List SRow} {k : String} :
    k ∈ reactivatedKeys cur prev ↔
      k ∈ keysOf cur ∧ k ∈ keysOf prev ∧
        activeOf prev k = false ∧ activeOf cur k = true := by
  simp only [reactivatedKeys, bothKeys, List.mem_filter, contains_iff_mem,
    Bool.and_eq_true, Bool.not_eq_true', and_assoc]

theorem mem_addedNewKeys {cur prev : List SRow} {k : String} :
    k ∈ addedNewKeys cur prev ↔
      k ∈ keysOf cur ∧ k ∉ keysOf prev ∧ activeOf cur k = true := by
  simp only [addedNewKeys, onlyCurKeys, List.mem_filter, Bool.not_eq_true',
    contains_eq_false_iff, and_assoc]

theorem mem_removedSoftKeys {cur prev : List SRow} {k : String} :
    k ∈ removedSoftKeys cur prev ↔
      k ∈ keysOf cur ∧ k ∈ keysOf prev ∧
        activeOf prev k = true ∧ activeOf cur k = false := by
  simp only [removedSoftKeys, bothKeys, List.mem_filter, contains_iff_mem,
    Bool.and_eq_true, Bool.not_eq_true', and_assoc]

theorem mem_removedMissingKeys {cur prev : List SRow} {k : String} :
    k ∈ removedMissingKeys cur prev ↔
      k ∈ keysOf prev ∧ k ∉ keysOf cur ∧ activeOf prev k = true := by
  simp only [removedMissingKeys, onlyPrevKeys, List.mem_filter,
    Bool.not_eq_true', contains_eq_false_iff, and_assoc]

theorem mem_updatedKeys {cur prev : List SRow} {k : String} :
    k ∈ updatedKeys cur prev ↔
      k ∈ keysOf cur ∧ k ∈ keysOf prev ∧
        activeOf prev k = true ∧ activeOf cur k = true ∧
        sigOfKey (compareCols cur prev) cur k ≠
          sigOfKey (compareCols cur prev) prev k := by
  simp only [updatedKeys, bothKeys, List.mem_filter, contains_iff_mem,
    Bool.and_eq_true, bne_iff_ne, ne_eq, and_assoc]

theorem mem_addedKeys {cur prev : List SRow} {k : String} :
    k ∈ addedKeys cur prev ↔
      k ∈ reactivatedKeys cur prev ∨ k ∈ addedNewKeys cur prev := by
  simp [addedKeys]

theorem mem_removedKeys {cur prev : List SRow} {k : String} :
    k ∈ removedKeys cur prev ↔
      k ∈ removedSoftKeys cur prev ∨ k ∈ removedMissingKeys cur prev := by
  simp [removedKeys]

/-- C3: with unique keys on both sides, the `added` partition consists
exactly of the current-snapshot rows that are new-and-active (tagged
`added_new`) or present-in-both, inactive-before and active-now (tagged
`reactivated`); the `removed` partition consists exactly of the
current-snapshot rows gone inactive (tagged `removed_soft`) and the
previous-snapshot rows of keys that vanished while active (tagged
`removed_missing_in_current`); and no reactivated key is ever emitted as
updated. -/
theorem c3_snapshot_differ_added_removed (cur prev : List SRow)
    (hc : (keysOf cur).Nodup) (hp : (keysOf prev).Nodup) :
    (∀ r t, (r, t) ∈ addedOut cur prev ↔
      (r ∈ cur ∧ r.isActive = true ∧
        ((t = "added_new" ∧ r.key ∉ keysOf prev) ∨
         (t = "reactivated" ∧ r.key ∈ keysOf prev ∧
           activeOf prev r.key = false)))) ∧
    (∀ r t, (r, t) ∈ removedOut cur prev ↔
      ((t = "removed_soft" ∧ r ∈ cur ∧ r.isActive = false ∧
          r.key ∈ keysOf prev ∧ activeOf prev r.key = true) ∨
       (t = "removed_missing_in_current" ∧ r ∈ prev ∧ r.isActive = true ∧
          r.key ∉ keysOf cur))) ∧
    (∀ r, (r, "reactivated") ∈ addedOut cur prev →
      ∀ p ∈ updatedOut cur prev, p.1.key ≠ r.key) := by
  have haddIff : ∀ r t, (r, t) ∈ addedOut cur prev ↔
      (r ∈ cur ∧ r.isActive = true ∧
        ((t = "added_new" ∧ r.key ∉ keysOf prev) ∨
         (t = "reactivated" ∧ r.key ∈ keysOf prev ∧
           activeOf prev r.key = false))) := by
    intro r t
    rw [addedOut, mem_map_pair_iff, List.mem_filter]
    constructor
    · rintro ⟨⟨hr, hcont⟩, ht⟩
      have hkadd := mem_addedKeys.mp ((contains_iff_mem _ _).mp hcont)
      have hact := activeOf_of_mem hc hr
      rcases hkadd with hre | hnew
      · obtain ⟨_, hinp, hpa, hca⟩ := mem_reactivatedKeys.mp hre
        have hcontn : (addedNewKeys cur prev).contains r.key = false := by
          rw [contains_eq_false_iff]
          intro hx
          exact (mem_addedNewKeys.mp hx).2.1 hinp
        rw [hcontn] at ht
        exact ⟨hr, hact ▸ hca, Or.inr ⟨by simpa using ht, hinp, hpa⟩⟩
      · obtain ⟨_, hnp, hca⟩ := mem_addedNewKeys.mp hnew
        have hcontt : (addedNewKeys cur prev).contains r.key = true :=
          (contains_iff_mem _ _).mpr hnew
        rw [hcontt] at ht
        exact ⟨hr, hact ▸ hca, Or.inl ⟨by simpa using ht, hnp⟩⟩
    · rintro ⟨hr, hact, hcase⟩
      have hkc : r.key ∈ keysOf cur := List.mem_map_of_mem SRow.key hr
      have hacur : activeOf cur r.key = true := (activeOf_of_mem hc hr).trans hact
      rcases hcase with ⟨ht, hnp⟩ | ⟨ht, hinp, hpa⟩
      · have hnew : r.key ∈ addedNewKeys cur prev :=
          mem_addedNewKeys.mpr ⟨hkc, hnp, hacur⟩
        refine ⟨⟨hr, (contains_iff_mem _ _).mpr (mem_addedKeys.mpr (Or.inr hnew))⟩, ?_⟩
        rw [(contains_iff_mem _ _).mpr hnew]
        simpa using ht
      · have hre : r.key ∈ reactivatedKeys cur prev :=
          mem_reactivatedKeys.mpr ⟨hkc, hinp, hpa, hacur⟩
        have hcontn : (addedNewKeys cur prev).contains r.key = false := by
          rw [contains_eq_false_iff]
          intro hx
          exact (mem_addedNewKeys.mp hx).2.1 hinp
        refine ⟨⟨hr, (contains_iff_mem _ _).mpr (mem_addedKeys.mpr (Or.inl hre))⟩, ?_⟩
        rw [hcontn]
        simpa using ht
  refine ⟨haddIff, ?_, ?_⟩
  · intro r t
    rw [removedOut, List.mem_append, mem_map_pair_iff, mem_map_pair_iff,
      List.mem_filter, List.mem_filter]
    constructor
    · rintro (⟨⟨hr, hcont⟩, ht⟩ | ⟨⟨hr, hcont⟩, ht⟩)
      · obtain ⟨_, hinp, hpa, hca⟩ :=
          mem_removedSoftKeys.mp ((contains_iff_mem _ _).mp hcont)
        exact Or.inl ⟨ht, hr, (activeOf_of_mem hc hr) ▸ hca, hinp, hpa⟩
      · obtain ⟨_, hnc, hpa⟩ :=
          mem_removedMissingKeys.mp ((contains_iff_mem _ _).mp hcont)
        exact Or.inr ⟨ht, hr, (activeOf_of_mem hp hr) ▸ hpa, hnc⟩
    · rintro (⟨ht, hr, hact, hinp, hpa⟩ | ⟨ht, hr, hact, hnc⟩)
      · refine Or.inl ⟨⟨hr, (contains_iff_mem _ _).mpr ?_⟩, ht⟩
        exact mem_removedSoftKeys.mpr
          ⟨List.mem_map_of_mem SRow.key hr, hinp, hpa,
            (activeOf_of_mem hc hr).trans hact⟩
      · refine Or.inr ⟨⟨hr, (contains_iff_mem _ _).mpr ?_⟩, ht⟩
        exact mem_removedMissingKeys.mpr
          ⟨List.mem_map_of_mem SRow.key hr, hnc,
            (activeOf_of_mem hp hr).trans hact⟩
  · intro r hre p hp2
    obtain ⟨hr, _, hcase⟩ := (haddIff r "reactivated").mp hre
    rcases hcase with ⟨ht, _⟩ | ⟨_, _, hpa⟩
    · exact absurd ht (by decide)
    · rw [updatedOut] at hp2
      obtain ⟨x, hx, hxe⟩ := List.mem_map.mp hp2
      have hxf := List.mem_filter.mp hx
      obtain ⟨_, _, hpaT, _, _⟩ :=
        mem_updatedKeys.mp ((contains_iff_mem _ _).mp hxf.2)
      intro hke
      rw [← hxe] at hke
      simp only at hke
      rw [hke] at hpaT
      rw [hpaT] at hpa
      cases hpa

/-- C4: with unique keys on both sides, a key present in both snapshots is
emitted as updated exactly when both rows are active and their signatures
over the shared comparison columns differ, and every key of the union is
classified into exactly one of added / removed / updated / unchanged
(pairwise disjoint partitions). -/
theorem c4_snapshot_differ_updated_partition (cur prev : List SRow)
    (hc : (keysOf cur).Nodup) (hp : (keysOf prev).Nodup) :
    (∀ rc ∈ cur, ∀ rp ∈ prev, rc.key = rp.key →
      (rc.key ∈ updatedKeys cur prev ↔
        rc.isActive = true ∧ rp.isActive = true ∧
          rowSignature (compareCols cur prev) rc.attrs ≠
            rowSignature (compareCols cur prev) rp.attrs)) ∧
    (∀ k, (k ∈ keysOf cur ∨ k ∈ keysOf prev) →
      ((k ∈ addedKeys cur prev →
          k ∉ removedKeys cur prev ∧ k ∉ updatedKeys cur prev) ∧
       (k ∈ removedKeys cur prev → k ∉ updatedKeys cur prev) ∧
       (k ∈ unchangedKeys cur prev ↔
          k ∉ addedKeys cur prev ∧ k ∉ removedKeys cur prev ∧
            k ∉ updatedKeys cur prev) ∧
       (k ∈ addedKeys cur prev ∨ k ∈ removedKeys cur prev ∨
         k ∈ updatedKeys cur prev ∨ k ∈ unchangedKeys cur prev))) := by
  constructor
  · intro rc hrc rp hrp hk
    rw [mem_updatedKeys]
    have h1 : activeOf cur rc.key = rc.isActive := activeOf_of_mem hc hrc
    have h2 : activeOf prev rc.key = rp.isActive := by
      rw [hk]
      exact activeOf_of_mem hp hrp
    have h3 : sigOfKey (compareCols cur prev) cur rc.key =
        rowSignature (compareCols cur prev) rc.attrs := sigOfKey_of_mem hc hrc
    have h4 : sigOfKey (compareCols cur prev) prev rc.key =
        rowSignature (compareCols cur prev) rp.attrs := by
      rw [hk]
      exact sigOfKey_of_mem hp hrp
    rw [h1, h2, h3, h4]
    constructor
    · rintro ⟨_, _, hpa, hca, hsig⟩
      exact ⟨hca, hpa, hsig⟩
    · rintro ⟨hca, hpa, hsig⟩
      refine ⟨List.mem_map_of_mem SRow.key hrc, ?_, hpa, hca, hsig⟩
      rw [hk]
      exact List.mem_map_of_mem SRow.key hrp
  · intro k hk
    refine ⟨?_, ?_, ?_, ?_⟩
    · intro ha
      rcases mem_addedKeys.mp ha with hre | hnew
      · obtain ⟨hkc, hinp, hpa, hca⟩ := mem_reactivatedKeys.mp hre
        constructor
        · intro hrem
          rcases mem_removedKeys.mp hrem with hs | hm
          · have h := (mem_removedSoftKeys.mp hs).2.2.2
            rw [h] at hca
            exact Bool.noConfusion hca
          · exact (mem_removedMissingKeys.mp hm).2.1 hkc
        · intro hupd
          have h := (mem_updatedKeys.mp hupd).2.2.1
          rw [hpa] at h
          exact Bool.noConfusion h
      · obtain ⟨hkc, hnp, hca⟩ := mem_addedNewKeys.mp hnew
        constructor
        · intro hrem
          rcases mem_removedKeys.mp hrem with hs | hm
          · exact hnp (mem_removedSoftKeys.mp hs).2.1
          · exact (mem_removedMissingKeys.mp hm).2.1 hkc
        · intro hupd
          exact hnp (mem_updatedKeys.mp hupd).2.1
    · intro hrem hupd
      rcases mem_removedKeys.mp hrem with hs | hm
      · have h1 := (mem_removedSoftKeys.mp hs).2.2.2
        have h2 := (mem_updatedKeys.mp hupd).2.2.2.1
        rw [h1] at h2
        exact Bool.noConfusion h2
      · exact (mem_removedMissingKeys.mp hm).2.1 (mem_updatedKeys.mp hupd).1
    · rw [unchangedKeys, List.mem_filter]
      simp only [Bool.and_eq_true, contains_eq_false_iff, Bool.not_eq_true',
        List.mem_append]
      tauto
    · by_cases ha : k ∈ addedKeys cur prev
      · exact Or.inl ha
      · by_cases hr : k ∈ removedKeys cur prev
        · exact Or.inr (Or.inl hr)
        · by_cases hu : k ∈ updatedKeys cur prev
          · exact Or.inr (Or.inr (Or.inl hu))
          · refine Or.inr (Or.inr (Or.inr ?_))
            rw [unchangedKeys, List.mem_filter]
            refine ⟨List.mem_append.mpr hk, ?_⟩
            simp [contains_eq_false_iff, ha, hr, hu]

/-- Witness for `c3_snapshot_differ_added_removed`: a key inactive in the
previous snapshot and active in the current one is emitted in `added` as
`reactivated`, and the previous-only active key `COMP|LOC1` is emitted in
`removed` as `removed_missing_in_current`. -/
theorem c3_snapshot_differ_added_removed_witness :
    ((curRowSampleB, "reactivated") ∈
        addedOut [curRowSampleB] [prevRowSampleB, ⟨"COMP|LOC1", true, []⟩] ↔
      (curRowSampleB ∈ [curRowSampleB] ∧ curRowSampleB.isActive = true ∧
        (("reactivated" = "added_new" ∧
            curRowSampleB.key ∉ keysOf [prevRowSampleB, ⟨"COMP|LOC1", true, []⟩]) ∨
         ("reactivated" = "reactivated" ∧
            curRowSampleB.key ∈ keysOf [prevRowSampleB, ⟨"COMP|LOC1", true, []⟩] ∧
            activeOf [prevRowSampleB, ⟨"COMP|LOC1", true, []⟩]
              curRowSampleB.key = false)))) ∧
    ((⟨"COMP|LOC1", true, []⟩, "removed_missing_in_current") ∈
        removedOut [curRowSampleB] [prevRowSampleB, ⟨"COMP|LOC1", true, []⟩] ↔
      (("removed_missing_in_current" = "removed_soft" ∧
          (⟨"COMP|LOC1", true, []⟩ : SRow) ∈ [curRowSampleB] ∧
          (⟨"COMP|LOC1", true, []⟩ : SRow).isActive = false ∧
          (⟨"COMP|LOC1", true, []⟩ : SRow).key ∈
            keysOf [prevRowSampleB, ⟨"COMP|LOC1", true, []⟩] ∧
          activeOf [prevRowSampleB, ⟨"COMP|LOC1", true, []⟩]
            (⟨"COMP|LOC1", true, []⟩ : SRow).key = true) ∨
       ("removed_missing_in_current" = "removed_missing_in_current" ∧
          (⟨"COMP|LOC1", true, []⟩ : SRow) ∈ [prevRowSampleB, ⟨"COMP|LOC1", true, []⟩] ∧
          (⟨"COMP|LOC1", true, []⟩ : SRow).isActive = true ∧
          (⟨"COMP|LOC1", true, []⟩ : SRow).key ∉ keysOf [curRowSampleB]))) :=
  ⟨(c3_snapshot_differ_added_removed [curRowSampleB]
      [prevRowSampleB, ⟨"COMP|LOC1", true, []⟩] (by decide) (by decide)).1
    curRowSampleB "reactivated",
   (c3_snapshot_differ_added_removed [curRowSampleB]
      [prevRowSampleB, ⟨"COMP|LOC1", true, []⟩] (by decide) (by decide)).2.1
    ⟨"COMP|LOC1", true, []⟩ "removed_missing_in_current"⟩

/-- Witness for `c4_snapshot_differ_updated_partition` on the reactivation
snapshots: the key `S1|LOC2` is classified into exactly one partition. -/
theorem c4_snapshot_differ_updated_partition_witness :
    (curRowSampleB.key ∈ addedKeys [curRowSampleB] [prevRowSampleB] →
      curRowSampleB.key ∉ removedKeys [curRowSampleB] [prevRowSampleB] ∧
        curRowSampleB.key ∉ updatedKeys [curRowSampleB] [prevRowSampleB]) ∧
    (curRowSampleB.key ∈ removedKeys [curRowSampleB] [prevRowSampleB] →
      curRowSampleB.key ∉ updatedKeys [curRowSampleB] [prevRowSampleB]) ∧
    (curRowSampleB.key ∈ unchangedKeys [curRowSampleB] [prevRowSampleB] ↔
      curRowSampleB.key ∉ addedKeys [curRowSampleB] [prevRowSampleB] ∧
        curRowSampleB.key ∉ removedKeys [curRowSampleB] [prevRowSampleB] ∧
        curRowSampleB.key ∉ updatedKeys [curRowSampleB] [prevRowSampleB]) ∧
    (curRowSampleB.key ∈ addedKeys [curRowSampleB] [prevRowSampleB] ∨
      curRowSampleB.key ∈ removedKeys [curRowSampleB] [prevRowSampleB] ∨
      curRowSampleB.key ∈ updatedKeys [curRowSampleB] [prevRowSampleB] ∨
      curRowSampleB.key ∈ unchangedKeys [curRowSampleB] [prevRowSampleB]) :=
  (c4_snapshot_differ_updated_partition [curRowSampleB] [prevRowSampleB]
    (by decide) (by decide)).2 curRowSampleB.key (Or.inl (by decide))

theorem natToHex8_length (n : Nat) : (natToHex8 n).length = 8 := by
  simp [natToHex8]

theorem hexDigit_mem (k : Nat) : hexDigit k ∈ ("0123456789abcdef").data := by
  rw [hexDigit, List.getD_eq_getD_get?]
  cases hq : ("0123456789abcdef").data.get? k with
  | none => decide
  | some x =>
    have hx : x ∈ ("0123456789abcdef").data := List.get?_mem hq
    simpa [Option.getD] using hx

/-- C7 counterexample: two rows over the same column set `{A, B}` whose
values differ (column `A` holds `"x|y"` versus `"x"`) but whose signatures
are identical, because values are joined with an unescaped `"|"` separator
before hashing, so the canonical forms collide. -/
theorem c7_signature_iff_counterexample :
    valueAt [("A", Cell.strv "x|y"), ("B", Cell.strv "z")] "A" ≠
      valueAt [("A", Cell.strv "x"), ("B", Cell.strv "y|z")] "A" ∧
    row_hash [("A", Cell.strv "x|y"), ("B", Cell.strv "z")] =
      row_hash [("A", Cell.strv "x"), ("B", Cell.strv "y|z")] := by
  constructor
  · decide
  · unfold row_hash rowSignature
    exact congrArg sha256Hex (by decide)

/-- C7 amended: the row hash is a 64-character lowercase-hexadecimal
256-bit digest, invariant under column-order permutation and under the
null representation (`None` versus the NA marker), and rows with equal
coerced values over the same column set hash equally — signatures differ
only if some value differs.  (The converse of the original claim fails:
see `c7_signature_iff_counterexample`.) -/
theorem c7_signature_properties :
    (∀ s : String, (sha256Hex s).length = 64 ∧
      ∀ c ∈ (sha256Hex s).data, c ∈ ("0123456789abcdef").data) ∧
    (∀ row1 row2 : List (String × Cell), row1.Perm row2 →
      (row1.map Prod.fst).Nodup → row_hash row1 = row_hash row2) ∧
    (∀ row1 row2 : List (String × Cell),
      row1.map (fun p => (p.1, cellValue p.2)) =
        row2.map (fun p => (p.1, cellValue p.2)) →
      row_hash row1 = row_hash row2) ∧
    (∀ (cols : List String) (row1 row2 : List (String × Cell)),
      (∀ c, ((row1.lookup c).map cellStr).getD "" =
            ((row2.lookup c).map cellStr).getD "") →
      rowSignature cols row1 = rowSignature cols row2) := by
  refine ⟨?_, fun r1 r2 h hn => row_hash_perm h hn, ?_, ?_⟩
  · intro s
    constructor
    · show ((digestWords (sha256Bytes (strUtf8 s))).flatMap natToHex8).length = 64
      rw [digestWords]
      simp [natToHex8_length]
    · intro c hc
      have hm : c ∈ (digestWords (sha256Bytes (strUtf8 s))).flatMap natToHex8 := hc
      obtain ⟨n, _, hcn⟩ := List.mem_flatMap.mp hm
      obtain ⟨i, _, hci⟩ := List.mem_map.mp hcn
      rw [← hci]
      exact hexDigit_mem _
  · intro row1 row2 h
    have hcols : row1.map Prod.fst = row2.map Prod.fst := by
      have h2 := congrArg (List.map Prod.fst) h
      simpa [List.map_map, Function.comp] using h2
    have hval : ∀ c, (row1.lookup c).map cellValue =
        (row2.lookup c).map cellValue := by
      intro c
      rw [← lookup_map_snd cellValue row1 c, ← lookup_map_snd cellValue row2 c, h]
    have hstr : ∀ (row : List (String × Cell)) (c : String),
        (row.lookup c).map cellStr =
          ((row.lookup c).map cellValue).map (fun o => o.getD "") := by
      intro row c
      cases row.lookup c
      · rfl
      · rfl
    unfold row_hash rowSignature rowCanonical reindexedValues
    rw [hcols]
    apply congrArg sha256Hex
    apply congrArg (String.intercalate "|")
    apply List.map_congr_left
    intro c _
    rw [hstr row1 c, hstr row2 c, hval c]
  · intro cols row1 row2 h
    unfold rowSignature rowCanonical reindexedValues
    exact congrArg sha256Hex
      (congrArg (String.intercalate "|") (List.map_congr_left (fun c _ => h c)))

/-- Witness for `c7_signature_properties`: swapping the two columns of a
concrete row leaves the hash unchanged. -/
theorem c7_signature_properties_witness :
    row_hash [("B", Cell.strv "2"), ("A", Cell.strv "1")] =
      row_hash [("A", Cell.strv "1"), ("B", Cell.strv "2")] :=
  c7_signature_properties.2.1 _ _
    (List.Perm.swap ("A", Cell.strv "1") ("B", Cell.strv "2") [])
    (by decide)
set_option maxRecDepth 10000 in
/-- Sanity check of the SHA-256 model against the FIPS 180-2 test vector
for `"abc"`. -/
theorem sha256Hex_test_vector_abc :
    sha256Hex "abc" =
      "ba7816bf8f01cfea414140de5dae2223b00361a396177a9cb410ff61f20015ad" := by
  decide

set_option maxRecDepth 10000 in
/-- Sanity check of the SHA-256 model on the empty message (padding edge
case). -/
theorem sha256Hex_test_vector_empty :
    sha256Hex "" =
      "e3b0c44298fc1c149afbf4c8996fb92427ae41e4649b934ca495991b7852b855" := by
  decide
